import Mathlib

set_option maxHeartbeats 1600000
set_option linter.unusedSectionVars false
set_option linter.unnecessarySimpa false

/-!
# Shallow embedding of `src/paxos.py`

This file embeds the single-decree Paxos simulation of `src/paxos.py` and
proves the specification claims about it.

Modelling conventions:

* Python `int` becomes `Int` (the `-1` sentinels of the acceptor state are kept
  literally).  The wall-clock reading `int(time.time() * 1000000)` performed by
  `propose` is an input of the model (`now_us`), since the clock is an external
  source.
* Python `Optional` values become `Option`.  Proposal values are opaque
  (`Val` with decidable equality); everywhere the Python code can hold `None`
  in a value position the model uses `Option Val`.
* Python `set` becomes `Finset String`; the dictionaries `learned_values` and
  `accept_counts` become total functions defaulting to "absent"
  (`none` / `∅`), which is observationally what the Python dict-of-dict code
  maintains (inner sets are created right before an element is inserted).
* The network is modelled as a pool of in-flight messages.  An execution is a
  list of events: `propose` calls (with the clock value read during the call)
  and deliveries of pending in-flight messages, in any order.  Each handler
  runs atomically on its node and returns the node's new state together with
  the messages it sends (`Network.send_message` / `Network.broadcast`);
  `send_message`'s membership check on the receiver is performed at delivery.
  This is the standard asynchronous-scheduler abstraction of the Python code's
  threaded, synchronously cascading delivery: every schedule the Python
  program can produce is one particular interleaving of these events.
-/

namespace PaxosPy

/-- `class MessageType(Enum)`. -/
inductive MessageType where
  | PREPARE
  | PROMISE
  | ACCEPT
  | ACCEPTED
deriving DecidableEq

/-- `@dataclass Message`.  Optional fields default to `none` as in the
Python dataclass. -/
structure Message (Val : Type) where
  msg_type : MessageType
  proposal_id : Int
  sender_id : String
  receiver_id : String
  value : Option Val := none
  accepted_proposal_id : Option Int := none
  accepted_value : Option Val := none
deriving DecidableEq

/-- The per-node state of `class PaxosNode` (proposer + acceptor + learner). -/
structure Node (Val : Type) where
  node_id : String
  proposal_id : Int
  current_proposal_value : Option Val
  promises_received : Finset String
  highest_accepted_id : Int
  highest_accepted_value : Option Val
  promised_proposal_id : Int
  accepted_proposal_id : Int
  accepted_value : Option Val
  learned_values : Int → Option (Option Val)
  accept_counts : Int → Option Val → Finset String

/-- `PaxosNode.__init__`. -/
def initNode {Val : Type} (nid : String) : Node Val where
  node_id := nid
  proposal_id := 0
  current_proposal_value := none
  promises_received := ∅
  highest_accepted_id := -1
  highest_accepted_value := none
  promised_proposal_id := -1
  accepted_proposal_id := -1
  accepted_value := none
  learned_values := fun _ => none
  accept_counts := fun _ _ => ∅

/-- `len(self.network.nodes) // 2 + 1`, the expression inlined at the two
quorum checks (`ReceivePromiseSendAccept` and `handle_accepted`). -/
def majority_threshold (n : Nat) : Nat := n / 2 + 1

variable {Val : Type} [DecidableEq Val]

/-- `Network.broadcast`: one addressed copy per registered node, skipping
`exclude` (`if node_id != exclude`; a `str` never equals `None`). -/
def broadcast (members : List String) (m : Message Val) (exclude : Option String) :
    List (Message Val) :=
  (members.filter (fun nid => decide (some nid ≠ exclude))).map
    (fun nid => { m with receiver_id := nid })

/-- `PaxosNode.propose` (Phase 1a).  `now_us` is the value of
`int(time.time() * 1000000)` read during the call.  Returns the new node state
and the messages handed to the network. -/
def propose (members : List String) (n : Node Val) (now_us : Int) (value : Val) :
    Node Val × List (Message Val) :=
  let n' := { n with
    proposal_id := now_us
    current_proposal_value := some value
    promises_received := ∅
    highest_accepted_id := -1
    highest_accepted_value := none }
  (n', broadcast members
        { msg_type := .PREPARE
          proposal_id := n'.proposal_id
          sender_id := n.node_id
          receiver_id := "broadcast" }
        (some n.node_id))

/-- `PaxosNode.ReceiveProposeSendPromise` (Phase 1b). -/
def ReceiveProposeSendPromise (n : Node Val) (m : Message Val) :
    Node Val × List (Message Val) :=
  if m.proposal_id > n.promised_proposal_id then
    ({ n with promised_proposal_id := m.proposal_id },
     [{ msg_type := .PROMISE
        proposal_id := m.proposal_id
        sender_id := n.node_id
        receiver_id := m.sender_id
        accepted_proposal_id :=
          if n.accepted_proposal_id ≠ -1 then some n.accepted_proposal_id else none
        accepted_value := n.accepted_value }])
  else
    (n, [])

/-- `PaxosNode.ReceivePromiseSendAccept` (Phase 2a). -/
def ReceivePromiseSendAccept (members : List String) (n : Node Val) (m : Message Val) :
    Node Val × List (Message Val) :=
  if m.proposal_id = n.proposal_id then
    let n1 : Node Val := { n with promises_received := insert m.sender_id n.promises_received }
    let n2 : Node Val :=
      match m.accepted_proposal_id, m.accepted_value with
      | some apid, some av =>
          if apid > n1.highest_accepted_id then
            { n1 with highest_accepted_id := apid, highest_accepted_value := some av }
          else n1
      | _, _ => n1
    if n2.promises_received.card ≥ majority_threshold members.length then
      let value_to_accept : Option Val :=
        match n2.highest_accepted_value with
        | some v => some v
        | none => n2.current_proposal_value
      ({ n2 with promises_received := ∅ },
       broadcast members
         { msg_type := .ACCEPT
           proposal_id := n2.proposal_id
           sender_id := n2.node_id
           receiver_id := "broadcast"
           value := value_to_accept }
         (some n2.node_id))
    else
      (n2, [])
  else
    (n, [])

/-- `PaxosNode.ReceiveAcceptSendAccepted` (Phase 2b). -/
def ReceiveAcceptSendAccepted (members : List String) (n : Node Val) (m : Message Val) :
    Node Val × List (Message Val) :=
  if m.proposal_id ≥ n.promised_proposal_id then
    ({ n with accepted_proposal_id := m.proposal_id, accepted_value := m.value },
     broadcast members
       { msg_type := .ACCEPTED
         proposal_id := m.proposal_id
         sender_id := n.node_id
         receiver_id := "broadcast"
         value := m.value }
       (some n.node_id))
  else
    (n, [])

/-- `PaxosNode.handle_accepted` (learner). -/
def handle_accepted (members : List String) (n : Node Val) (m : Message Val) :
    Node Val × List (Message Val) :=
  let proposal_key := m.proposal_id
  let value_key := m.value
  let s1 := insert m.sender_id (n.accept_counts proposal_key value_key)
  let s2 :=
    if n.accepted_proposal_id = proposal_key ∧ n.accepted_value = value_key then
      insert n.node_id s1
    else s1
  let counts' := fun k v =>
    if k = proposal_key ∧ v = value_key then s2 else n.accept_counts k v
  let learned' :=
    if s2.card ≥ majority_threshold members.length ∧
        n.learned_values proposal_key = none then
      fun k => if k = proposal_key then some value_key else n.learned_values k
    else n.learned_values
  ({ n with accept_counts := counts', learned_values := learned' }, [])

/-- `PaxosNode.receive_message`: dispatch on the message type. -/
def receive_message (members : List String) (n : Node Val) (m : Message Val) :
    Node Val × List (Message Val) :=
  match m.msg_type with
  | .PREPARE => ReceiveProposeSendPromise n m
  | .PROMISE => ReceivePromiseSendAccept members n m
  | .ACCEPT => ReceiveAcceptSendAccepted members n m
  | .ACCEPTED => handle_accepted members n m

/-- Global system state: the fixed membership (`Network.nodes` keys), each
node's state, and the pool of in-flight messages. -/
structure Sys (Val : Type) where
  members : List String
  state : String → Node Val
  inflight : List (Message Val)

/-- All nodes freshly constructed, no message in flight. -/
def initSys {Val : Type} (members : List String) : Sys Val where
  members := members
  state := fun nid => initNode nid
  inflight := []

/-- An execution event: a `propose(value)` call on a node (with the clock
value it reads), or delivery of the `i`-th in-flight message. -/
inductive Event (Val : Type) where
  | propose (nid : String) (now_us : Int) (value : Val)
  | deliver (i : Nat)

/-- Pointwise update of the node-state map. -/
def updState (f : String → Node Val) (nid : String) (n : Node Val) :
    String → Node Val :=
  fun x => if x = nid then n else f x

/-- One step of the system; also returns the messages sent during the step.
`deliver` checks `message.receiver_id in self.nodes` as `send_message` does. -/
def stepOut (s : Sys Val) (e : Event Val) : Sys Val × List (Message Val) :=
  match e with
  | .propose nid now v =>
      if nid ∈ s.members then
        let r := propose s.members (s.state nid) now v
        ({ s with state := updState s.state nid r.1, inflight := s.inflight ++ r.2 },
         r.2)
      else (s, [])
  | .deliver i =>
      match s.inflight[i]? with
      | none => (s, [])
      | some m =>
          let rest := s.inflight.eraseIdx i
          if m.receiver_id ∈ s.members then
            let r := receive_message s.members (s.state m.receiver_id) m
            ({ s with
                state := updState s.state m.receiver_id r.1
                inflight := rest ++ r.2 },
             r.2)
          else ({ s with inflight := rest }, [])

/-- One step of the system. -/
def step (s : Sys Val) (e : Event Val) : Sys Val := (stepOut s e).1

/-- Run a sequence of events. -/
def run (s : Sys Val) (events : List (Event Val)) : Sys Val :=
  events.foldl step s

/-- Feed a sequence of PREPARE proposal ids to a single acceptor (the
"monotonic promise" test of §8): for each delivery, record the resulting
`promised_proposal_id` and whether a PROMISE reply was emitted. -/
def promisedTrace (n : Node String) (ids : List Int) : List (Int × Bool) :=
  (ids.foldl
    (fun (acc : Node String × List (Int × Bool)) k =>
      let r := ReceiveProposeSendPromise acc.1
        { msg_type := .PREPARE
          proposal_id := k
          sender_id := "P"
          receiver_id := acc.1.node_id }
      (r.1, acc.2 ++ [(r.1.promised_proposal_id, !r.2.isEmpty)]))
    (n, [])).2

/-! ## List helper lemmas -/

theorem mem_of_mem_eraseIdx {α : Type _} {l : List α} {i : Nat} {a : α}
    (h : a ∈ l.eraseIdx i) : a ∈ l := by
  induction l generalizing i with
  | nil => simpa [List.eraseIdx] using h
  | cons b t ih =>
    cases i with
    | zero =>
      right
      simpa [List.eraseIdx] using h
    | succ j =>
      rw [List.eraseIdx] at h
      rcases List.mem_cons.mp h with h | h
      · exact h ▸ List.mem_cons_self b t
      · exact List.mem_cons_of_mem _ (ih h)

theorem length_filter_eraseIdx {α : Type _} (p : α → Bool) (l : List α) (i : Nat) (a : α)
    (h : l[i]? = some a) :
    (l.filter p).length = ((l.eraseIdx i).filter p).length + (if p a then 1 else 0) := by
  induction l generalizing i with
  | nil => simp at h
  | cons b t ih =>
    cases i with
    | zero =>
      rw [List.getElem?_cons_zero] at h
      injection h with h
      rw [List.eraseIdx, List.filter_cons, h]
      cases hb : p a <;> simp [hb]
    | succ j =>
      rw [List.getElem?_cons_succ] at h
      rw [List.eraseIdx, List.filter_cons, List.filter_cons]
      have := ih j h
      cases hb : p b <;> simp [hb] <;> omega

theorem two_le_length_of_mem_ne {α : Type _} [DecidableEq α] {l : List α} {a b : α}
    (ha : a ∈ l) (hb : b ∈ l) (hab : a ≠ b) : 2 ≤ l.length := by
  have h1 : ({a, b} : Finset α) ⊆ l.toFinset := by
    intro y hy
    rcases Finset.mem_insert.mp hy with rfl | hy
    · exact List.mem_toFinset.mpr ha
    · exact List.mem_toFinset.mpr (Finset.mem_singleton.mp hy ▸ hb)
  have h2 := Finset.card_le_card h1
  rw [Finset.card_insert_of_not_mem (by simp [hab]), Finset.card_singleton] at h2
  exact h2.trans l.toFinset_card_le

theorem mem_of_getElem?_eq_some {α : Type _} {l : List α} {i : Nat} {a : α}
    (h : l[i]? = some a) : a ∈ l := by
  induction l generalizing i with
  | nil => simp at h
  | cons b t ih =>
    cases i with
    | zero =>
      rw [List.getElem?_cons_zero] at h
      injection h with h
      subst h
      exact List.mem_cons_self _ _
    | succ j =>
      rw [List.getElem?_cons_succ] at h
      exact List.mem_cons_of_mem _ (ih h)

/-! ## Message-trace bookkeeping used by the safety invariant -/

/-- The PROMISE messages for proposal `k` addressed to `r` in a message list. -/
def promsTo (l : List (Message Val)) (k : Int) (r : String) : List (Message Val) :=
  l.filter fun mm =>
    decide (mm.msg_type = .PROMISE ∧ mm.proposal_id = k ∧ mm.receiver_id = r)

/-- Distinct senders of PROMISE messages for `k` addressed to `r`. -/
def promisers (l : List (Message Val)) (k : Int) (r : String) : Finset String :=
  ((promsTo l k r).map Message.sender_id).toFinset

/-- The PROMISE messages with sender `x` and proposal `k` (any receiver). -/
def promsBySender (l : List (Message Val)) (x : String) (k : Int) : List (Message Val) :=
  l.filter fun mm =>
    decide (mm.msg_type = .PROMISE ∧ mm.sender_id = x ∧ mm.proposal_id = k)

/-- The ACCEPT messages with sender `p` and proposal `k`. -/
def acceptsBy (l : List (Message Val)) (p : String) (k : Int) : List (Message Val) :=
  l.filter fun mm =>
    decide (mm.msg_type = .ACCEPT ∧ mm.sender_id = p ∧ mm.proposal_id = k)

/-- `1` if `p` has ever handed an ACCEPT for proposal `k` to the network. -/
def spentFlag (l : List (Message Val)) (p : String) (k : Int) : Nat :=
  if acceptsBy l p k = [] then 0 else 1

theorem promsTo_append (l1 l2 : List (Message Val)) (k : Int) (r : String) :
    promsTo (l1 ++ l2) k r = promsTo l1 k r ++ promsTo l2 k r :=
  List.filter_append ..

theorem promsBySender_append (l1 l2 : List (Message Val)) (x : String) (k : Int) :
    promsBySender (l1 ++ l2) x k = promsBySender l1 x k ++ promsBySender l2 x k :=
  List.filter_append ..

theorem acceptsBy_append (l1 l2 : List (Message Val)) (p : String) (k : Int) :
    acceptsBy (l1 ++ l2) p k = acceptsBy l1 p k ++ acceptsBy l2 p k :=
  List.filter_append ..

theorem promsTo_eq_nil {l : List (Message Val)} {k : Int} {r : String}
    (h : ∀ mm ∈ l, ¬(mm.msg_type = .PROMISE ∧ mm.proposal_id = k ∧ mm.receiver_id = r)) :
    promsTo l k r = [] := by
  simpa [promsTo, List.filter_eq_nil_iff] using h

theorem promisers_append (l1 l2 : List (Message Val)) (k : Int) (r : String) :
    promisers (l1 ++ l2) k r = promisers l1 k r ∪ promisers l2 k r := by
  rw [promisers, promsTo_append, List.map_append, List.toFinset_append]; rfl

theorem promisers_subset_append (l1 l2 : List (Message Val)) (k : Int) (r : String) :
    promisers l1 k r ⊆ promisers (l1 ++ l2) k r := by
  rw [promisers_append]; exact Finset.subset_union_left

theorem mem_promisers {l : List (Message Val)} {k : Int} {r : String} {x : String} :
    x ∈ promisers l k r ↔
      ∃ mm ∈ l, mm.msg_type = .PROMISE ∧ mm.proposal_id = k ∧ mm.receiver_id = r ∧
        mm.sender_id = x := by
  simp only [promisers, promsTo, List.mem_toFinset, List.mem_map, List.mem_filter,
    decide_eq_true_eq]
  constructor
  · rintro ⟨mm, ⟨hmem, h1, h2, h3⟩, rfl⟩
    exact ⟨mm, hmem, h1, h2, h3, rfl⟩
  · rintro ⟨mm, hmem, h1, h2, h3, rfl⟩
    exact ⟨mm, ⟨hmem, h1, h2, h3⟩, rfl⟩

theorem mem_acceptsBy {l : List (Message Val)} {p : String} {k : Int} {mm : Message Val} :
    mm ∈ acceptsBy l p k ↔
      mm ∈ l ∧ mm.msg_type = .ACCEPT ∧ mm.sender_id = p ∧ mm.proposal_id = k := by
  simp [acceptsBy, List.mem_filter]

theorem mem_promsBySender {l : List (Message Val)} {x : String} {k : Int} {mm : Message Val} :
    mm ∈ promsBySender l x k ↔
      mm ∈ l ∧ mm.msg_type = .PROMISE ∧ mm.sender_id = x ∧ mm.proposal_id = k := by
  simp [promsBySender, List.mem_filter]

theorem spentFlag_le_one (l : List (Message Val)) (p : String) (k : Int) :
    spentFlag l p k ≤ 1 := by
  rw [spentFlag]; split <;> omega

theorem spentFlag_eq_one_of_mem {l : List (Message Val)} {p : String} {k : Int}
    {mm : Message Val} (hmem : mm ∈ l) (ht : mm.msg_type = .ACCEPT)
    (hs : mm.sender_id = p) (hk : mm.proposal_id = k) : spentFlag l p k = 1 := by
  rw [spentFlag, if_neg]
  intro hnil
  exact List.not_mem_nil mm (hnil ▸ mem_acceptsBy.mpr ⟨hmem, ht, hs, hk⟩)

theorem exists_accept_of_spentFlag_eq_one {l : List (Message Val)} {p : String} {k : Int}
    (h : spentFlag l p k = 1) :
    ∃ mm ∈ l, mm.msg_type = .ACCEPT ∧ mm.sender_id = p ∧ mm.proposal_id = k := by
  rw [spentFlag] at h
  split at h
  · omega
  · rename_i hne
    rcases List.exists_mem_of_ne_nil _ hne with ⟨mm, hmm⟩
    exact ⟨mm, (mem_acceptsBy.mp hmm).1, (mem_acceptsBy.mp hmm).2⟩

theorem acceptsBy_eq_nil {l : List (Message Val)} {p : String} {k : Int}
    (h : ∀ mm ∈ l, ¬(mm.msg_type = .ACCEPT ∧ mm.sender_id = p ∧ mm.proposal_id = k)) :
    acceptsBy l p k = [] := by
  simpa [acceptsBy, List.filter_eq_nil_iff] using h

theorem spentFlag_append_eq {l1 l2 : List (Message Val)} {p : String} {k : Int}
    (h : acceptsBy l2 p k = []) : spentFlag (l1 ++ l2) p k = spentFlag l1 p k := by
  rw [spentFlag, spentFlag, acceptsBy_append, h, List.append_nil]

/-! ## Characterisations of the handlers and of `stepOut` -/

theorem updState_apply (f : String → Node Val) (nid : String) (n : Node Val) (x : String) :
    updState f nid n x = if x = nid then n else f x := rfl

theorem updState_same (f : String → Node Val) (nid : String) (n : Node Val) :
    updState f nid n nid = n := by
  rw [updState_apply, if_pos rfl]

theorem updState_other (f : String → Node Val) (nid : String) (n : Node Val) {x : String}
    (h : x ≠ nid) : updState f nid n x = f x := by
  rw [updState_apply, if_neg h]

theorem updState_self (f : String → Node Val) (nid : String) :
    updState f nid (f nid) = f := by
  funext x
  rw [updState_apply]
  split
  · rename_i hx; rw [hx]
  · rfl

theorem mem_broadcast {members : List String} {base : Message Val} {excl : Option String}
    {mm : Message Val} :
    mm ∈ broadcast members base excl ↔
      ∃ nid, nid ∈ members ∧ some nid ≠ excl ∧ mm = { base with receiver_id := nid } := by
  constructor
  · intro h
    rcases List.mem_map.mp h with ⟨nid, hnid, rfl⟩
    rcases List.mem_filter.mp hnid with ⟨hmem, hdec⟩
    exact ⟨nid, hmem, of_decide_eq_true hdec, rfl⟩
  · rintro ⟨nid, hmem, hne, rfl⟩
    exact List.mem_map.mpr ⟨nid, List.mem_filter.mpr ⟨hmem, decide_eq_true hne⟩, rfl⟩

theorem broadcast_fields {members : List String} {base : Message Val} {x : String}
    {mm : Message Val} (h : mm ∈ broadcast members base (some x)) :
    mm.msg_type = base.msg_type ∧ mm.proposal_id = base.proposal_id ∧
      mm.sender_id = base.sender_id ∧ mm.value = base.value ∧
      mm.receiver_id ∈ members ∧ mm.receiver_id ≠ x := by
  rcases mem_broadcast.mp h with ⟨nid, hmem, hne, rfl⟩
  exact ⟨rfl, rfl, rfl, rfl, hmem, fun hx => hne (congrArg some hx)⟩

/-- The PROMISE reply built inside `ReceiveProposeSendPromise`. -/
def promiseMsg (n : Node Val) (m : Message Val) : Message Val where
  msg_type := .PROMISE
  proposal_id := m.proposal_id
  sender_id := n.node_id
  receiver_id := m.sender_id
  accepted_proposal_id :=
    if n.accepted_proposal_id ≠ -1 then some n.accepted_proposal_id else none
  accepted_value := n.accepted_value

theorem RPSP_pos {n : Node Val} {m : Message Val}
    (h : m.proposal_id > n.promised_proposal_id) :
    ReceiveProposeSendPromise n m =
      ({ n with promised_proposal_id := m.proposal_id }, [promiseMsg n m]) := by
  simp only [ReceiveProposeSendPromise, if_pos h]
  rfl

theorem RPSP_neg {n : Node Val} {m : Message Val}
    (h : ¬ m.proposal_id > n.promised_proposal_id) :
    ReceiveProposeSendPromise n m = (n, []) := by
  simp only [ReceiveProposeSendPromise, if_neg h]

theorem RPSA_stale {members : List String} {n : Node Val} {m : Message Val}
    (h : m.proposal_id ≠ n.proposal_id) :
    ReceivePromiseSendAccept members n m = (n, []) := by
  simp only [ReceivePromiseSendAccept, if_neg h]

theorem RPSA_noquorum {members : List String} {n : Node Val} {m : Message Val}
    (hpid : m.proposal_id = n.proposal_id)
    (hq : ¬ majority_threshold members.length ≤
        (insert m.sender_id n.promises_received).card) :
    ∃ hi hv, ReceivePromiseSendAccept members n m =
      ({ n with promises_received := insert m.sender_id n.promises_received,
                highest_accepted_id := hi, highest_accepted_value := hv }, []) := by
  simp only [ReceivePromiseSendAccept, if_pos hpid]
  cases hap : m.accepted_proposal_id with
  | none => exact ⟨n.highest_accepted_id, n.highest_accepted_value, by simp [hq]⟩
  | some apid =>
    cases hav : m.accepted_value with
    | none => exact ⟨n.highest_accepted_id, n.highest_accepted_value, by simp [hq]⟩
    | some av =>
      by_cases hgt : apid > n.highest_accepted_id
      · exact ⟨apid, some av, by simp [hq, hgt]⟩
      · exact ⟨n.highest_accepted_id, n.highest_accepted_value, by simp [hq, hgt]⟩

theorem RPSA_quorum {members : List String} {n : Node Val} {m : Message Val}
    (hpid : m.proposal_id = n.proposal_id)
    (hq : majority_threshold members.length ≤
        (insert m.sender_id n.promises_received).card) :
    ∃ hi hv va, ReceivePromiseSendAccept members n m =
      ({ n with promises_received := ∅,
                highest_accepted_id := hi, highest_accepted_value := hv },
       broadcast members
         { msg_type := .ACCEPT, proposal_id := n.proposal_id, sender_id := n.node_id,
           receiver_id := "broadcast", value := va } (some n.node_id)) := by
  simp only [ReceivePromiseSendAccept, if_pos hpid]
  cases hap : m.accepted_proposal_id with
  | none =>
    cases hhv : n.highest_accepted_value with
    | none =>
      exact ⟨n.highest_accepted_id, none, n.current_proposal_value, by simp [hq, hhv]⟩
    | some w =>
      exact ⟨n.highest_accepted_id, some w, some w, by simp [hq, hhv]⟩
  | some apid =>
    cases hav : m.accepted_value with
    | none =>
      cases hhv : n.highest_accepted_value with
      | none =>
        exact ⟨n.highest_accepted_id, none, n.current_proposal_value, by simp [hq, hhv]⟩
      | some w =>
        exact ⟨n.highest_accepted_id, some w, some w, by simp [hq, hhv]⟩
    | some av =>
      by_cases hgt : apid > n.highest_accepted_id
      · exact ⟨apid, some av, some av, by simp [hq, hgt]⟩
      · cases hhv : n.highest_accepted_value with
        | none =>
          exact ⟨n.highest_accepted_id, none, n.current_proposal_value, by simp [hq, hgt, hhv]⟩
        | some w =>
          exact ⟨n.highest_accepted_id, some w, some w, by simp [hq, hgt, hhv]⟩

theorem RASA_pos {members : List String} {n : Node Val} {m : Message Val}
    (h : m.proposal_id ≥ n.promised_proposal_id) :
    ReceiveAcceptSendAccepted members n m =
      ({ n with accepted_proposal_id := m.proposal_id, accepted_value := m.value },
       broadcast members
         { msg_type := .ACCEPTED, proposal_id := m.proposal_id, sender_id := n.node_id,
           receiver_id := "broadcast", value := m.value } (some n.node_id)) := by
  simp only [ReceiveAcceptSendAccepted, if_pos h]

theorem RASA_neg {members : List String} {n : Node Val} {m : Message Val}
    (h : ¬ m.proposal_id ≥ n.promised_proposal_id) :
    ReceiveAcceptSendAccepted members n m = (n, []) := by
  simp only [ReceiveAcceptSendAccepted, if_neg h]

theorem handle_accepted_snd (members : List String) (n : Node Val) (m : Message Val) :
    (handle_accepted members n m).2 = [] := rfl

theorem handle_accepted_keeps (members : List String) (n : Node Val) (m : Message Val) :
    (handle_accepted members n m).1.node_id = n.node_id ∧
    (handle_accepted members n m).1.proposal_id = n.proposal_id ∧
    (handle_accepted members n m).1.promises_received = n.promises_received ∧
    (handle_accepted members n m).1.promised_proposal_id = n.promised_proposal_id :=
  ⟨rfl, rfl, rfl, rfl⟩

theorem handle_accepted_counts_src (members : List String) (n : Node Val) (m : Message Val)
    (k : Int) (v : Option Val)
    (h : ((handle_accepted members n m).1.accept_counts k v).Nonempty) :
    (k = m.proposal_id ∧ v = m.value) ∨ (n.accept_counts k v).Nonempty := by
  by_cases hkv : k = m.proposal_id ∧ v = m.value
  · exact Or.inl hkv
  · right
    have heq : (handle_accepted members n m).1.accept_counts k v = n.accept_counts k v :=
      if_neg hkv
    rwa [heq] at h

theorem handle_accepted_learned_src (members : List String) (n : Node Val) (m : Message Val)
    (k : Int) (v : Option Val)
    (h : (handle_accepted members n m).1.learned_values k = some v) :
    (k = m.proposal_id ∧ v = m.value) ∨ n.learned_values k = some v := by
  have hsplit : (handle_accepted members n m).1.learned_values =
      (fun kk => if kk = m.proposal_id then some m.value else n.learned_values kk) ∨
      (handle_accepted members n m).1.learned_values = n.learned_values := by
    simp only [handle_accepted]
    split <;> split <;> first | exact Or.inl rfl | exact Or.inr rfl
  rcases hsplit with hs | hs
  · rw [hs] at h
    have h2 : (if k = m.proposal_id then some m.value else n.learned_values k) = some v := h
    by_cases hk : k = m.proposal_id
    · rw [if_pos hk] at h2
      exact Or.inl ⟨hk, (Option.some_inj.mp h2).symm⟩
    · rw [if_neg hk] at h2
      exact Or.inr h2
  · rw [hs] at h
    exact Or.inr h

theorem receive_message_eq (members : List String) (n : Node Val) (m : Message Val) :
    receive_message members n m =
      match m.msg_type with
      | .PREPARE => ReceiveProposeSendPromise n m
      | .PROMISE => ReceivePromiseSendAccept members n m
      | .ACCEPT => ReceiveAcceptSendAccepted members n m
      | .ACCEPTED => handle_accepted members n m := rfl

theorem stepOut_propose_mem {s : Sys Val} {nid : String} {now : Int} {v : Val}
    (hmem : nid ∈ s.members) :
    stepOut s (.propose nid now v) =
      ({ s with state := updState s.state nid (propose s.members (s.state nid) now v).1,
                inflight := s.inflight ++ (propose s.members (s.state nid) now v).2 },
       (propose s.members (s.state nid) now v).2) := by
  simp [stepOut, hmem]

theorem stepOut_propose_not_mem {s : Sys Val} {nid : String} {now : Int} {v : Val}
    (h : nid ∉ s.members) :
    stepOut s (.propose nid now v) = (s, []) := by
  simp [stepOut, h]

theorem stepOut_deliver_none {s : Sys Val} {i : Nat}
    (h : s.inflight[i]? = none) :
    stepOut s (.deliver i) = (s, []) := by
  simp [stepOut, h]

theorem stepOut_deliver_drop {s : Sys Val} {i : Nat} {m : Message Val}
    (hm : s.inflight[i]? = some m) (h : m.receiver_id ∉ s.members) :
    stepOut s (.deliver i) = ({ s with inflight := s.inflight.eraseIdx i }, []) := by
  simp [stepOut, hm, h]

theorem stepOut_deliver_mem {s : Sys Val} {i : Nat} {m : Message Val}
    (hm : s.inflight[i]? = some m) (h : m.receiver_id ∈ s.members) :
    stepOut s (.deliver i) =
      ({ s with
          state := updState s.state m.receiver_id
            (receive_message s.members (s.state m.receiver_id) m).1,
          inflight := s.inflight.eraseIdx i ++
            (receive_message s.members (s.state m.receiver_id) m).2 },
       (receive_message s.members (s.state m.receiver_id) m).2) := by
  simp [stepOut, hm, h]

/-! ## Traced runs and the safety invariant -/

/-- `stepOut`, threading a log of every message ever sent. -/
def stepT (p : Sys Val × List (Message Val)) (e : Event Val) :
    Sys Val × List (Message Val) :=
  ((stepOut p.1 e).1, p.2 ++ (stepOut p.1 e).2)

/-- Run with a log of every message ever sent. -/
def runT (p : Sys Val × List (Message Val)) (events : List (Event Val)) :
    Sys Val × List (Message Val) :=
  events.foldl stepT p

theorem runT_fst (s : Sys Val) (log : List (Message Val)) (events : List (Event Val)) :
    (runT (s, log) events).1 = run s events := by
  induction events generalizing s log with
  | nil => rfl
  | cons e t ih =>
    show (runT (stepT (s, log) e) t).1 = run (step s e) t
    exact ih (step s e) (log ++ (stepOut s e).2)

theorem stepOut_members (s : Sys Val) (e : Event Val) :
    (stepOut s e).1.members = s.members := by
  cases e with
  | propose nid now v =>
    by_cases h : nid ∈ s.members
    · rw [stepOut_propose_mem h]
    · rw [stepOut_propose_not_mem h]
  | deliver i =>
    cases hm : s.inflight[i]? with
    | none => rw [stepOut_deliver_none hm]
    | some m =>
      by_cases h : m.receiver_id ∈ s.members
      · rw [stepOut_deliver_mem hm h]
      · rw [stepOut_deliver_drop hm h]

/-- The promise-budget accounting for proposer `p` at proposal `k`: promises
currently banked by `p` for its live proposal, plus promises still in flight
to `p`, plus a full quorum for an ACCEPT already spent at `k`. -/
def budgetLHS (S : Sys Val) (sent : List (Message Val)) (p : String) (k : Int) : Nat :=
  (if (S.state p).proposal_id = k then (S.state p).promises_received.card else 0) +
    (promsTo S.inflight k p).length +
    majority_threshold S.members.length * spentFlag sent p k

/-- The inductive safety invariant of a traced execution: `S` is the system
state and `sent` is the log of every message ever handed to the network. -/
structure Inv (S : Sys Val) (sent : List (Message Val)) : Prop where
  node_id_eq : ∀ p, (S.state p).node_id = p
  inflight_sent : ∀ m ∈ S.inflight, m ∈ sent
  sender_mem : ∀ m ∈ sent, m.sender_id ∈ S.members
  sender_ne_receiver : ∀ m ∈ sent, m.sender_id ≠ m.receiver_id
  promised_ge : ∀ m ∈ sent, m.msg_type = .PROMISE →
      m.proposal_id ≤ (S.state m.sender_id).promised_proposal_id
  prom_unique : ∀ x k, (promsBySender sent x k).length ≤ 1
  promrecv_sub : ∀ p,
      (S.state p).promises_received ⊆ promisers sent (S.state p).proposal_id p
  budget : ∀ p ∈ S.members, ∀ k, budgetLHS S sent p k ≤ (promisers sent k p).card
  accept_uniq : ∀ m1 ∈ sent, ∀ m2 ∈ sent,
      m1.msg_type = .ACCEPT → m2.msg_type = .ACCEPT →
      m1.proposal_id = m2.proposal_id → m1.value = m2.value
  accepted_src : ∀ m ∈ sent, m.msg_type = .ACCEPTED →
      ∃ m2 ∈ sent, m2.msg_type = .ACCEPT ∧ m2.proposal_id = m.proposal_id ∧
        m2.value = m.value
  counts_src : ∀ p k v, ((S.state p).accept_counts k v).Nonempty →
      ∃ m2 ∈ sent, m2.msg_type = .ACCEPT ∧ m2.proposal_id = k ∧ m2.value = v
  learned_src : ∀ p k v, (S.state p).learned_values k = some v →
      ∃ m2 ∈ sent, m2.msg_type = .ACCEPT ∧ m2.proposal_id = k ∧ m2.value = v

theorem promsBySender_eq_nil {l : List (Message Val)} {x : String} {k : Int}
    (h : ∀ mm ∈ l, ¬(mm.msg_type = .PROMISE ∧ mm.sender_id = x ∧ mm.proposal_id = k)) :
    promsBySender l x k = [] := by
  simpa [promsBySender, List.filter_eq_nil_iff] using h

theorem promisers_append_eq {l1 l2 : List (Message Val)} {k : Int} {r : String}
    (h : promsTo l2 k r = []) : promisers (l1 ++ l2) k r = promisers l1 k r := by
  rw [promisers, promsTo_append, h, List.append_nil]
  rfl

theorem inv_init (members : List String) : Inv (initSys members : Sys Val) [] := by
  refine ⟨fun p => rfl, ?_, ?_, ?_, ?_, ?_, ?_, ?_, ?_, ?_, ?_, ?_⟩
  · intro m hm; simp [initSys] at hm
  · intro m hm; simp at hm
  · intro m hm; simp at hm
  · intro m hm; simp at hm
  · intro x k; simp [promsBySender]
  · intro p
    show (∅ : Finset String) ⊆ _
    exact Finset.empty_subset _
  · intro p hp k
    show (if (0 : Int) = k then (∅ : Finset String).card else 0) +
        (promsTo (initSys members : Sys Val).inflight k p).length +
        majority_threshold members.length * spentFlag [] p k ≤ _
    have h1 : (promsTo (initSys members : Sys Val).inflight k p).length = 0 := by
      simp [initSys, promsTo]
    have h2 : spentFlag ([] : List (Message Val)) p k = 0 := by
      simp [spentFlag, acceptsBy]
    rw [h1, h2]
    split <;> simp
  · intro m1 hm1; simp at hm1
  · intro m hm; simp at hm
  · intro p k v h
    exact absurd h (by simp [initSys, initNode, Finset.not_nonempty_empty])
  · intro p k v h
    exact absurd h (by simp [initSys, initNode])

theorem Sys_mk_members (a : List String) (b : String → Node Val) (c : List (Message Val)) :
    (Sys.mk a b c : Sys Val).members = a := rfl

theorem Sys_mk_state (a : List String) (b : String → Node Val) (c : List (Message Val)) :
    (Sys.mk a b c : Sys Val).state = b := rfl

theorem Sys_mk_inflight (a : List String) (b : String → Node Val) (c : List (Message Val)) :
    (Sys.mk a b c : Sys Val).inflight = c := rfl

theorem inv_propose (S : Sys Val) (sent : List (Message Val)) (h : Inv S sent)
    (nid : String) (now : Int) (v : Val) :
    Inv (stepOut S (.propose nid now v)).1 (sent ++ (stepOut S (.propose nid now v)).2) := by
  by_cases hmem : nid ∈ S.members
  case neg =>
    rw [stepOut_propose_not_mem hmem]
    simpa using h
  case pos =>
    rw [stepOut_propose_mem hmem]
    dsimp only
    have hout : (propose S.members (S.state nid) now v).2 =
        broadcast S.members
          { msg_type := .PREPARE, proposal_id := now, sender_id := nid,
            receiver_id := "broadcast" } (some nid) := by
      simp only [propose]
      rw [h.node_id_eq nid]
    have houtm : ∀ mm ∈ (propose S.members (S.state nid) now v).2,
        mm.msg_type = .PREPARE ∧ mm.proposal_id = now ∧ mm.sender_id = nid ∧
          mm.receiver_id ∈ S.members ∧ mm.receiver_id ≠ nid := by
      intro mm hmm
      rw [hout] at hmm
      have hb := broadcast_fields hmm
      exact ⟨hb.1, hb.2.1, hb.2.2.1, hb.2.2.2.2.1, hb.2.2.2.2.2⟩
    refine ⟨?_, ?_, ?_, ?_, ?_, ?_, ?_, ?_, ?_, ?_, ?_, ?_⟩ <;>
      dsimp only [Sys_mk_members, Sys_mk_state, Sys_mk_inflight]
    · intro p
      rw [updState_apply]
      split
      · rename_i hp
        subst hp
        exact h.node_id_eq p
      · exact h.node_id_eq p
    · intro m hm
      rcases List.mem_append.mp hm with hm | hm
      · exact List.mem_append_left _ (h.inflight_sent m hm)
      · exact List.mem_append_right _ hm
    · intro m hm
      rcases List.mem_append.mp hm with hm | hm
      · exact h.sender_mem m hm
      · rw [(houtm m hm).2.2.1]; exact hmem
    · intro m hm
      rcases List.mem_append.mp hm with hm | hm
      · exact h.sender_ne_receiver m hm
      · rcases houtm m hm with ⟨_, _, hs, _, hr⟩
        intro he
        rw [hs] at he
        exact hr he.symm
    · intro m hm hty
      rcases List.mem_append.mp hm with hm | hm
      · have hle := h.promised_ge m hm hty
        rw [updState_apply]
        split
        · rename_i hp
          rw [hp] at hle
          exact hle
        · exact hle
      · have h1 := (houtm m hm).1
        rw [hty] at h1
        simp at h1
    · intro x k
      have hz : promsBySender (propose S.members (S.state nid) now v).2 x k = [] :=
        promsBySender_eq_nil (fun mm hmm hc => by
          have h1 := (houtm mm hmm).1
          rw [hc.1] at h1
          simp at h1)
      rw [promsBySender_append, hz, List.append_nil]
      exact h.prom_unique x k
    · intro p
      rw [updState_apply]
      split
      · exact Finset.empty_subset _
      · exact (h.promrecv_sub p).trans (promisers_subset_append _ _ _ _)
    · intro p hp k
      have hpromsout : promsTo (propose S.members (S.state nid) now v).2 k p = [] :=
        promsTo_eq_nil (fun mm hmm hc => by
          have h1 := (houtm mm hmm).1
          rw [hc.1] at h1
          simp at h1)
      have haccout : acceptsBy (propose S.members (S.state nid) now v).2 p k = [] :=
        acceptsBy_eq_nil (fun mm hmm hc => by
          have h1 := (houtm mm hmm).1
          rw [hc.1] at h1
          simp at h1)
      have hb := h.budget p hp k
      rw [budgetLHS] at hb ⊢
      rw [promisers_append_eq hpromsout]
      simp only [promsTo_append, hpromsout, List.append_nil, List.length_append,
        spentFlag_append_eq haccout, updState_apply]
      split
      · rename_i hpn
        subst hpn
        simp only [propose]
        split <;> simp <;> omega
      · exact hb
    · intro m1 hm1 m2 hm2 ht1 ht2 hpid12
      rcases List.mem_append.mp hm1 with hm1 | hm1
      · rcases List.mem_append.mp hm2 with hm2 | hm2
        · exact h.accept_uniq m1 hm1 m2 hm2 ht1 ht2 hpid12
        · have h1 := (houtm m2 hm2).1
          rw [ht2] at h1
          simp at h1
      · have h1 := (houtm m1 hm1).1
        rw [ht1] at h1
        simp at h1
    · intro m hm hty
      rcases List.mem_append.mp hm with hm | hm
      · rcases h.accepted_src m hm hty with ⟨m2, hm2, hrest⟩
        exact ⟨m2, List.mem_append_left _ hm2, hrest⟩
      · have h1 := (houtm m hm).1
        rw [hty] at h1
        simp at h1
    · intro p k vv hne
      rw [updState_apply] at hne
      by_cases hp : p = nid
      · rw [if_pos hp] at hne
        rcases h.counts_src nid k vv hne with ⟨m2, hm2, hrest⟩
        exact ⟨m2, List.mem_append_left _ hm2, hrest⟩
      · rw [if_neg hp] at hne
        rcases h.counts_src p k vv hne with ⟨m2, hm2, hrest⟩
        exact ⟨m2, List.mem_append_left _ hm2, hrest⟩
    · intro p k vv hne
      rw [updState_apply] at hne
      by_cases hp : p = nid
      · rw [if_pos hp] at hne
        rcases h.learned_src nid k vv hne with ⟨m2, hm2, hrest⟩
        exact ⟨m2, List.mem_append_left _ hm2, hrest⟩
      · rw [if_neg hp] at hne
        rcases h.learned_src p k vv hne with ⟨m2, hm2, hrest⟩
        exact ⟨m2, List.mem_append_left _ hm2, hrest⟩

theorem receive_msg_prepare {members : List String} {n : Node Val} {m : Message Val}
    (hty : m.msg_type = .PREPARE) :
    receive_message members n m = ReceiveProposeSendPromise n m := by
  rw [receive_message_eq, hty]

theorem receive_msg_promise {members : List String} {n : Node Val} {m : Message Val}
    (hty : m.msg_type = .PROMISE) :
    receive_message members n m = ReceivePromiseSendAccept members n m := by
  rw [receive_message_eq, hty]

theorem receive_msg_accept {members : List String} {n : Node Val} {m : Message Val}
    (hty : m.msg_type = .ACCEPT) :
    receive_message members n m = ReceiveAcceptSendAccepted members n m := by
  rw [receive_message_eq, hty]

theorem receive_msg_accepted {members : List String} {n : Node Val} {m : Message Val}
    (hty : m.msg_type = .ACCEPTED) :
    receive_message members n m = handle_accepted members n m := by
  rw [receive_message_eq, hty]

theorem promsTo_eraseIdx_le (l : List (Message Val)) (i : Nat) (m : Message Val)
    (hm : l[i]? = some m) (k : Int) (r : String) :
    (promsTo (l.eraseIdx i) k r).length ≤ (promsTo l k r).length := by
  have hlen := length_filter_eraseIdx
    (fun mm => decide (mm.msg_type = .PROMISE ∧ mm.proposal_id = k ∧ mm.receiver_id = r))
    l i m hm
  rw [promsTo, promsTo]
  omega

theorem promsTo_eraseIdx_eq (l : List (Message Val)) (i : Nat) (m : Message Val)
    (hm : l[i]? = some m) (k : Int) (r : String)
    (hmatch : m.msg_type = .PROMISE ∧ m.proposal_id = k ∧ m.receiver_id = r) :
    (promsTo l k r).length = (promsTo (l.eraseIdx i) k r).length + 1 := by
  have hlen := length_filter_eraseIdx
    (fun mm => decide (mm.msg_type = .PROMISE ∧ mm.proposal_id = k ∧ mm.receiver_id = r))
    l i m hm
  simp only [decide_eq_true hmatch] at hlen
  rw [promsTo, promsTo]
  simpa using hlen

theorem promsTo_eraseIdx_eq_of_not (l : List (Message Val)) (i : Nat) (m : Message Val)
    (hm : l[i]? = some m) (k : Int) (r : String)
    (hnot : ¬(m.msg_type = .PROMISE ∧ m.proposal_id = k ∧ m.receiver_id = r)) :
    (promsTo (l.eraseIdx i) k r).length = (promsTo l k r).length := by
  have hlen := length_filter_eraseIdx
    (fun mm => decide (mm.msg_type = .PROMISE ∧ mm.proposal_id = k ∧ mm.receiver_id = r))
    l i m hm
  simp only [decide_eq_false hnot] at hlen
  rw [promsTo, promsTo]
  simpa using hlen.symm

theorem inv_eraseIdx (S : Sys Val) (sent : List (Message Val)) (h : Inv S sent)
    (i : Nat) (m : Message Val) (hm : S.inflight[i]? = some m) :
    Inv (⟨S.members, S.state, S.inflight.eraseIdx i⟩ : Sys Val) sent := by
  refine ⟨h.node_id_eq, ?_, h.sender_mem, h.sender_ne_receiver, h.promised_ge,
    h.prom_unique, h.promrecv_sub, ?_, h.accept_uniq, h.accepted_src,
    h.counts_src, h.learned_src⟩
  · intro mm hmm
    exact h.inflight_sent mm (mem_of_mem_eraseIdx hmm)
  · intro p hp k
    have hb := h.budget p hp k
    rw [budgetLHS] at hb ⊢
    dsimp only [Sys_mk_members, Sys_mk_state, Sys_mk_inflight]
    have hle := promsTo_eraseIdx_le S.inflight i m hm k p
    omega

theorem inv_deliver_none (S : Sys Val) (sent : List (Message Val)) (h : Inv S sent)
    (i : Nat) (hm : S.inflight[i]? = none) :
    Inv (stepOut S (.deliver i)).1 (sent ++ (stepOut S (.deliver i)).2) := by
  rw [stepOut_deliver_none hm]
  simpa using h

theorem inv_deliver_drop (S : Sys Val) (sent : List (Message Val)) (h : Inv S sent)
    (i : Nat) (m : Message Val) (hm : S.inflight[i]? = some m)
    (hx : m.receiver_id ∉ S.members) :
    Inv (stepOut S (.deliver i)).1 (sent ++ (stepOut S (.deliver i)).2) := by
  rw [stepOut_deliver_drop hm hx]
  dsimp only
  rw [List.append_nil]
  exact inv_eraseIdx S sent h i m hm

theorem inv_deliver_prepare (S : Sys Val) (sent : List (Message Val)) (h : Inv S sent)
    (i : Nat) (m : Message Val) (hm : S.inflight[i]? = some m)
    (hx : m.receiver_id ∈ S.members) (hty : m.msg_type = .PREPARE) :
    Inv (stepOut S (.deliver i)).1 (sent ++ (stepOut S (.deliver i)).2) := by
  have hmsent : m ∈ sent := h.inflight_sent m (mem_of_getElem?_eq_some hm)
  rw [stepOut_deliver_mem hm hx]
  dsimp only
  rw [receive_msg_prepare hty]
  by_cases hgt : m.proposal_id > (S.state m.receiver_id).promised_proposal_id
  case neg =>
    rw [RPSP_neg hgt]
    dsimp only
    rw [updState_self, List.append_nil, List.append_nil]
    exact inv_eraseIdx S sent h i m hm
  case pos =>
    rw [RPSP_pos hgt]
    dsimp only
    have hprfields : ∀ mm ∈ [promiseMsg (S.state m.receiver_id) m],
        mm.msg_type = .PROMISE ∧ mm.proposal_id = m.proposal_id ∧
          mm.sender_id = m.receiver_id ∧ mm.receiver_id = m.sender_id := by
      intro mm hmm
      rw [List.mem_singleton] at hmm
      subst hmm
      exact ⟨rfl, rfl, h.node_id_eq m.receiver_id, rfl⟩
    refine ⟨?_, ?_, ?_, ?_, ?_, ?_, ?_, ?_, ?_, ?_, ?_, ?_⟩ <;>
      dsimp only [Sys_mk_members, Sys_mk_state, Sys_mk_inflight]
    · intro p
      rw [updState_apply]
      split
      · rename_i hp
        rw [hp]
        exact h.node_id_eq m.receiver_id
      · exact h.node_id_eq p
    · intro mm hmm
      rcases List.mem_append.mp hmm with hmm | hmm
      · exact List.mem_append_left _ (h.inflight_sent mm (mem_of_mem_eraseIdx hmm))
      · exact List.mem_append_right _ hmm
    · intro mm hmm
      rcases List.mem_append.mp hmm with hmm | hmm
      · exact h.sender_mem mm hmm
      · rw [(hprfields mm hmm).2.2.1]
        exact hx
    · intro mm hmm
      rcases List.mem_append.mp hmm with hmm | hmm
      · exact h.sender_ne_receiver mm hmm
      · rcases hprfields mm hmm with ⟨_, _, hs, hr⟩
        rw [hs, hr]
        exact fun he => h.sender_ne_receiver m hmsent he.symm
    · intro mm hmm htyp
      rcases List.mem_append.mp hmm with hmm | hmm
      · have hle := h.promised_ge mm hmm htyp
        rw [updState_apply]
        split
        · rename_i hp
          rw [hp] at hle
          calc mm.proposal_id ≤ (S.state m.receiver_id).promised_proposal_id := hle
            _ ≤ m.proposal_id := le_of_lt hgt
        · exact hle
      · rcases hprfields mm hmm with ⟨_, hpid, hs, _⟩
        rw [hpid, hs, updState_apply, if_pos rfl]
    · intro y k
      rw [promsBySender_append, List.length_append]
      by_cases hmat : y = m.receiver_id ∧ k = m.proposal_id
      · have hzero : promsBySender sent y k = [] := by
          apply promsBySender_eq_nil
          intro mm hmm hc
          have hle := h.promised_ge mm hmm hc.1
          rw [hc.2.1, hmat.1, hc.2.2, hmat.2] at hle
          omega
        have hone : (promsBySender [promiseMsg (S.state m.receiver_id) m] y k).length ≤ 1 := by
          rw [promsBySender, List.filter]
          split <;> simp
        rw [hzero]
        simpa using hone
      · have hzero : promsBySender [promiseMsg (S.state m.receiver_id) m] y k = [] := by
          apply promsBySender_eq_nil
          intro mm hmm hc
          rcases hprfields mm hmm with ⟨_, hpid, hs, _⟩
          exact hmat ⟨hc.2.1 ▸ hs, hc.2.2 ▸ hpid⟩
        rw [hzero]
        simpa using h.prom_unique y k
    · intro p
      rw [updState_apply]
      split
      · rename_i hp
        rw [hp]
        exact (h.promrecv_sub m.receiver_id).trans (promisers_subset_append _ _ _ _)
      · exact (h.promrecv_sub p).trans (promisers_subset_append _ _ _ _)
    · intro p hp k
      have hb := h.budget p hp k
      rw [budgetLHS] at hb ⊢
      dsimp only [Sys_mk_members, Sys_mk_state, Sys_mk_inflight]
      rw [promsTo_append, List.length_append]
      have herase : (promsTo (S.inflight.eraseIdx i) k p).length =
          (promsTo S.inflight k p).length := by
        apply promsTo_eraseIdx_eq_of_not S.inflight i m hm
        intro hc
        rw [hty] at hc
        simp at hc
      have hspent : spentFlag (sent ++ [promiseMsg (S.state m.receiver_id) m]) p k
          = spentFlag sent p k := by
        apply spentFlag_append_eq
        apply acceptsBy_eq_nil
        intro mm hmm hc
        have h1 := (hprfields mm hmm).1
        rw [hc.1] at h1
        simp at h1
      rw [hspent, herase, updState_apply]
      by_cases hmat : k = m.proposal_id ∧ p = m.sender_id
      · -- the new promise is addressed to `p` for proposal `k`
        have hpr_cnt : (promsTo [promiseMsg (S.state m.receiver_id) m] k p).length = 1 := by
          rw [promsTo, List.filter,
            decide_eq_true (⟨rfl, hmat.1.symm, hmat.2.symm⟩ :
              (promiseMsg (S.state m.receiver_id) m).msg_type = .PROMISE ∧
              (promiseMsg (S.state m.receiver_id) m).proposal_id = k ∧
              (promiseMsg (S.state m.receiver_id) m).receiver_id = p)]
          rfl
        have hfresh : m.receiver_id ∉ promisers sent k p := by
          intro hmem2
          rcases mem_promisers.mp hmem2 with ⟨mm, hmm, ht2, hk2, _, hs2⟩
          have hle := h.promised_ge mm hmm ht2
          rw [hs2, hk2, hmat.1] at hle
          omega
        have hsingle : promisers [promiseMsg (S.state m.receiver_id) m] k p
            = {m.receiver_id} := by
          rw [promisers, promsTo, List.filter,
            decide_eq_true (⟨rfl, hmat.1.symm, hmat.2.symm⟩ :
              (promiseMsg (S.state m.receiver_id) m).msg_type = .PROMISE ∧
              (promiseMsg (S.state m.receiver_id) m).proposal_id = k ∧
              (promiseMsg (S.state m.receiver_id) m).receiver_id = p)]
          simp [promiseMsg, h.node_id_eq m.receiver_id]
        have hgrow : promisers (sent ++ [promiseMsg (S.state m.receiver_id) m]) k p
            = insert m.receiver_id (promisers sent k p) := by
          rw [promisers_append, hsingle, Finset.union_comm]
          rfl
        rw [hgrow, Finset.card_insert_of_not_mem hfresh]
        have hpne : p ≠ m.receiver_id := by
          rw [hmat.2]
          exact fun he => h.sender_ne_receiver m hmsent he
        rw [if_neg hpne]
        omega
      · -- the new promise is not addressed to `(k, p)`
        have hpr_cnt : promsTo [promiseMsg (S.state m.receiver_id) m] k p = [] := by
          apply promsTo_eq_nil
          intro mm hmm hc
          rcases hprfields mm hmm with ⟨_, hpid, _, hr⟩
          exact hmat ⟨hc.2.1 ▸ hpid, hc.2.2 ▸ hr⟩
        have hsame : promisers (sent ++ [promiseMsg (S.state m.receiver_id) m]) k p
            = promisers sent k p := promisers_append_eq hpr_cnt
        rw [hsame, hpr_cnt]
        by_cases hpx : p = m.receiver_id
        · rw [if_pos hpx]
          subst hpx
          simp only [List.length_nil]
          omega
        · rw [if_neg hpx]
          simp only [List.length_nil]
          omega
    · intro m1 hm1 m2 hm2 ht1 ht2 hpid12
      rcases List.mem_append.mp hm1 with hm1 | hm1
      · rcases List.mem_append.mp hm2 with hm2 | hm2
        · exact h.accept_uniq m1 hm1 m2 hm2 ht1 ht2 hpid12
        · have h1 := (hprfields m2 hm2).1
          rw [ht2] at h1
          simp at h1
      · have h1 := (hprfields m1 hm1).1
        rw [ht1] at h1
        simp at h1
    · intro mm hmm htyp
      rcases List.mem_append.mp hmm with hmm | hmm
      · rcases h.accepted_src mm hmm htyp with ⟨m2, hm2, hrest⟩
        exact ⟨m2, List.mem_append_left _ hm2, hrest⟩
      · have h1 := (hprfields mm hmm).1
        rw [htyp] at h1
        simp at h1
    · intro p k vv hne
      rw [updState_apply] at hne
      by_cases hp : p = m.receiver_id
      · rw [if_pos hp] at hne
        rcases h.counts_src m.receiver_id k vv hne with ⟨m2, hm2, hrest⟩
        exact ⟨m2, List.mem_append_left _ hm2, hrest⟩
      · rw [if_neg hp] at hne
        rcases h.counts_src p k vv hne with ⟨m2, hm2, hrest⟩
        exact ⟨m2, List.mem_append_left _ hm2, hrest⟩
    · intro p k vv hne
      rw [updState_apply] at hne
      by_cases hp : p = m.receiver_id
      · rw [if_pos hp] at hne
        rcases h.learned_src m.receiver_id k vv hne with ⟨m2, hm2, hrest⟩
        exact ⟨m2, List.mem_append_left _ hm2, hrest⟩
      · rw [if_neg hp] at hne
        rcases h.learned_src p k vv hne with ⟨m2, hm2, hrest⟩
        exact ⟨m2, List.mem_append_left _ hm2, hrest⟩

theorem inv_deliver_accept (S : Sys Val) (sent : List (Message Val)) (h : Inv S sent)
    (i : Nat) (m : Message Val) (hm : S.inflight[i]? = some m)
    (hx : m.receiver_id ∈ S.members) (hty : m.msg_type = .ACCEPT) :
    Inv (stepOut S (.deliver i)).1 (sent ++ (stepOut S (.deliver i)).2) := by
  have hmsent : m ∈ sent := h.inflight_sent m (mem_of_getElem?_eq_some hm)
  rw [stepOut_deliver_mem hm hx]
  dsimp only
  rw [receive_msg_accept hty]
  by_cases hge : m.proposal_id ≥ (S.state m.receiver_id).promised_proposal_id
  case neg =>
    rw [RASA_neg hge]
    dsimp only
    rw [updState_self, List.append_nil, List.append_nil]
    exact inv_eraseIdx S sent h i m hm
  case pos =>
    rw [RASA_pos hge]
    dsimp only
    have houtm : ∀ mm ∈ broadcast S.members
        ({ msg_type := .ACCEPTED, proposal_id := m.proposal_id,
           sender_id := (S.state m.receiver_id).node_id, receiver_id := "broadcast",
           value := m.value } : Message Val) (some (S.state m.receiver_id).node_id),
        mm.msg_type = .ACCEPTED ∧ mm.proposal_id = m.proposal_id ∧
          mm.sender_id = m.receiver_id ∧ mm.value = m.value ∧
          mm.receiver_id ∈ S.members ∧ mm.receiver_id ≠ m.receiver_id := by
      intro mm hmm
      have hb := broadcast_fields hmm
      refine ⟨hb.1, hb.2.1, ?_, hb.2.2.2.1, hb.2.2.2.2.1, ?_⟩
      · rw [hb.2.2.1]
        exact h.node_id_eq m.receiver_id
      · rw [← h.node_id_eq m.receiver_id]
        exact hb.2.2.2.2.2
    refine ⟨?_, ?_, ?_, ?_, ?_, ?_, ?_, ?_, ?_, ?_, ?_, ?_⟩ <;>
      dsimp only [Sys_mk_members, Sys_mk_state, Sys_mk_inflight]
    · intro p
      rw [updState_apply]
      split
      · rename_i hp
        rw [hp]
        exact h.node_id_eq m.receiver_id
      · exact h.node_id_eq p
    · intro mm hmm
      rcases List.mem_append.mp hmm with hmm | hmm
      · exact List.mem_append_left _ (h.inflight_sent mm (mem_of_mem_eraseIdx hmm))
      · exact List.mem_append_right _ hmm
    · intro mm hmm
      rcases List.mem_append.mp hmm with hmm | hmm
      · exact h.sender_mem mm hmm
      · rw [(houtm mm hmm).2.2.1]
        exact hx
    · intro mm hmm
      rcases List.mem_append.mp hmm with hmm | hmm
      · exact h.sender_ne_receiver mm hmm
      · rcases houtm mm hmm with ⟨_, _, hs, _, _, hr⟩
        rw [hs]
        exact fun he => hr he.symm
    · intro mm hmm htyp
      rcases List.mem_append.mp hmm with hmm | hmm
      · have hle := h.promised_ge mm hmm htyp
        rw [updState_apply]
        split
        · rename_i hp
          rw [hp] at hle
          exact hle
        · exact hle
      · have h1 := (houtm mm hmm).1
        rw [htyp] at h1
        simp at h1
    · intro y k
      have hzero : promsBySender (broadcast S.members
          ({ msg_type := .ACCEPTED, proposal_id := m.proposal_id,
             sender_id := (S.state m.receiver_id).node_id, receiver_id := "broadcast",
             value := m.value } : Message Val) (some (S.state m.receiver_id).node_id)) y k
          = [] := by
        apply promsBySender_eq_nil
        intro mm hmm hc
        have h1 := (houtm mm hmm).1
        rw [hc.1] at h1
        simp at h1
      rw [promsBySender_append, hzero, List.append_nil]
      exact h.prom_unique y k
    · intro p
      rw [updState_apply]
      split
      · rename_i hp
        rw [hp]
        exact (h.promrecv_sub m.receiver_id).trans (promisers_subset_append _ _ _ _)
      · exact (h.promrecv_sub p).trans (promisers_subset_append _ _ _ _)
    · intro p hp k
      have hb := h.budget p hp k
      rw [budgetLHS] at hb ⊢
      dsimp only [Sys_mk_members, Sys_mk_state, Sys_mk_inflight]
      have hero : promsTo (broadcast S.members
          ({ msg_type := .ACCEPTED, proposal_id := m.proposal_id,
             sender_id := (S.state m.receiver_id).node_id, receiver_id := "broadcast",
             value := m.value } : Message Val) (some (S.state m.receiver_id).node_id)) k p
          = [] := by
        apply promsTo_eq_nil
        intro mm hmm hc
        have h1 := (houtm mm hmm).1
        rw [hc.1] at h1
        simp at h1
      have herase : (promsTo (S.inflight.eraseIdx i) k p).length =
          (promsTo S.inflight k p).length := by
        apply promsTo_eraseIdx_eq_of_not S.inflight i m hm
        intro hc
        rw [hty] at hc
        simp at hc
      have haccz : acceptsBy (broadcast S.members
          ({ msg_type := .ACCEPTED, proposal_id := m.proposal_id,
             sender_id := (S.state m.receiver_id).node_id, receiver_id := "broadcast",
             value := m.value } : Message Val) (some (S.state m.receiver_id).node_id)) p k
          = [] := by
        apply acceptsBy_eq_nil
        intro mm hmm hc
        have h1 := (houtm mm hmm).1
        rw [hc.1] at h1
        simp at h1
      rw [promsTo_append, List.length_append, hero, herase,
        spentFlag_append_eq haccz, promisers_append_eq hero, updState_apply]
      by_cases hpx : p = m.receiver_id
      · rw [if_pos hpx]
        subst hpx
        simp only [List.length_nil]
        omega
      · rw [if_neg hpx]
        simp only [List.length_nil]
        omega
    · intro m1 hm1 m2 hm2 ht1 ht2 hpid12
      rcases List.mem_append.mp hm1 with hm1 | hm1
      · rcases List.mem_append.mp hm2 with hm2 | hm2
        · exact h.accept_uniq m1 hm1 m2 hm2 ht1 ht2 hpid12
        · have h1 := (houtm m2 hm2).1
          rw [ht2] at h1
          simp at h1
      · have h1 := (houtm m1 hm1).1
        rw [ht1] at h1
        simp at h1
    · intro mm hmm htyp
      rcases List.mem_append.mp hmm with hmm | hmm
      · rcases h.accepted_src mm hmm htyp with ⟨m2, hm2, hrest⟩
        exact ⟨m2, List.mem_append_left _ hm2, hrest⟩
      · rcases houtm mm hmm with ⟨_, hpid, _, hval, _, _⟩
        exact ⟨m, List.mem_append_left _ hmsent, hty, hpid.symm, hval.symm⟩
    · intro p k vv hne
      rw [updState_apply] at hne
      by_cases hp : p = m.receiver_id
      · rw [if_pos hp] at hne
        rcases h.counts_src m.receiver_id k vv hne with ⟨m2, hm2, hrest⟩
        exact ⟨m2, List.mem_append_left _ hm2, hrest⟩
      · rw [if_neg hp] at hne
        rcases h.counts_src p k vv hne with ⟨m2, hm2, hrest⟩
        exact ⟨m2, List.mem_append_left _ hm2, hrest⟩
    · intro p k vv hne
      rw [updState_apply] at hne
      by_cases hp : p = m.receiver_id
      · rw [if_pos hp] at hne
        rcases h.learned_src m.receiver_id k vv hne with ⟨m2, hm2, hrest⟩
        exact ⟨m2, List.mem_append_left _ hm2, hrest⟩
      · rw [if_neg hp] at hne
        rcases h.learned_src p k vv hne with ⟨m2, hm2, hrest⟩
        exact ⟨m2, List.mem_append_left _ hm2, hrest⟩

theorem inv_deliver_accepted (S : Sys Val) (sent : List (Message Val)) (h : Inv S sent)
    (i : Nat) (m : Message Val) (hm : S.inflight[i]? = some m)
    (hx : m.receiver_id ∈ S.members) (hty : m.msg_type = .ACCEPTED) :
    Inv (stepOut S (.deliver i)).1 (sent ++ (stepOut S (.deliver i)).2) := by
  have hmsent : m ∈ sent := h.inflight_sent m (mem_of_getElem?_eq_some hm)
  rw [stepOut_deliver_mem hm hx]
  dsimp only
  rw [receive_msg_accepted hty, handle_accepted_snd, List.append_nil, List.append_nil]
  have hkeep := handle_accepted_keeps S.members (S.state m.receiver_id) m
  refine ⟨?_, ?_, ?_, ?_, ?_, ?_, ?_, ?_, ?_, ?_, ?_, ?_⟩ <;>
    dsimp only [Sys_mk_members, Sys_mk_state, Sys_mk_inflight]
  · intro p
    rw [updState_apply]
    split
    · rename_i hp
      rw [hp, hkeep.1]
      exact h.node_id_eq m.receiver_id
    · exact h.node_id_eq p
  · intro mm hmm
    exact h.inflight_sent mm (mem_of_mem_eraseIdx hmm)
  · exact h.sender_mem
  · exact h.sender_ne_receiver
  · intro mm hmm htyp
    have hle := h.promised_ge mm hmm htyp
    rw [updState_apply]
    split
    · rename_i hp
      rw [hkeep.2.2.2, ← hp]
      exact hle
    · exact hle
  · exact h.prom_unique
  · intro p
    rw [updState_apply]
    split
    · rename_i hp
      rw [hp, hkeep.2.2.1, hkeep.2.1]
      exact h.promrecv_sub m.receiver_id
    · exact h.promrecv_sub p
  · intro p hp k
    have hb := h.budget p hp k
    rw [budgetLHS] at hb ⊢
    dsimp only [Sys_mk_members, Sys_mk_state, Sys_mk_inflight]
    have herase : (promsTo (S.inflight.eraseIdx i) k p).length =
        (promsTo S.inflight k p).length := by
      apply promsTo_eraseIdx_eq_of_not S.inflight i m hm
      intro hc
      rw [hty] at hc
      simp at hc
    rw [herase, updState_apply]
    by_cases hpx : p = m.receiver_id
    · rw [if_pos hpx]
      rw [hkeep.2.2.1, hkeep.2.1]
      subst hpx
      omega
    · rw [if_neg hpx]
      omega
  · exact h.accept_uniq
  · exact h.accepted_src
  · intro p k vv hne
    rw [updState_apply] at hne
    by_cases hp : p = m.receiver_id
    · rw [if_pos hp] at hne
      rcases handle_accepted_counts_src S.members (S.state m.receiver_id) m k vv hne with
        hcase | hcase
      · rcases h.accepted_src m hmsent hty with ⟨m2, hm2, ht2, hpid2, hval2⟩
        exact ⟨m2, hm2, ht2, hcase.1 ▸ hpid2, hcase.2 ▸ hval2⟩
      · exact h.counts_src m.receiver_id k vv hcase
    · rw [if_neg hp] at hne
      exact h.counts_src p k vv hne
  · intro p k vv hne
    rw [updState_apply] at hne
    by_cases hp : p = m.receiver_id
    · rw [if_pos hp] at hne
      rcases handle_accepted_learned_src S.members (S.state m.receiver_id) m k vv hne with
        hcase | hcase
      · rcases h.accepted_src m hmsent hty with ⟨m2, hm2, ht2, hpid2, hval2⟩
        exact ⟨m2, hm2, ht2, hcase.1 ▸ hpid2, hcase.2 ▸ hval2⟩
      · exact h.learned_src m.receiver_id k vv hcase
    · rw [if_neg hp] at hne
      exact h.learned_src p k vv hne

theorem Node_mk_node_id (a1 : String) (a2 : Int) (a3 : Option Val) (a4 : Finset String)
    (a5 : Int) (a6 : Option Val) (a7 a8 : Int) (a9 : Option Val)
    (a10 : Int → Option (Option Val)) (a11 : Int → Option Val → Finset String) :
    (Node.mk a1 a2 a3 a4 a5 a6 a7 a8 a9 a10 a11).node_id = a1 := rfl

theorem Node_mk_proposal_id (a1 : String) (a2 : Int) (a3 : Option Val) (a4 : Finset String)
    (a5 : Int) (a6 : Option Val) (a7 a8 : Int) (a9 : Option Val)
    (a10 : Int → Option (Option Val)) (a11 : Int → Option Val → Finset String) :
    (Node.mk a1 a2 a3 a4 a5 a6 a7 a8 a9 a10 a11).proposal_id = a2 := rfl

theorem Node_mk_promises (a1 : String) (a2 : Int) (a3 : Option Val) (a4 : Finset String)
    (a5 : Int) (a6 : Option Val) (a7 a8 : Int) (a9 : Option Val)
    (a10 : Int → Option (Option Val)) (a11 : Int → Option Val → Finset String) :
    (Node.mk a1 a2 a3 a4 a5 a6 a7 a8 a9 a10 a11).promises_received = a4 := rfl

theorem Node_mk_promised (a1 : String) (a2 : Int) (a3 : Option Val) (a4 : Finset String)
    (a5 : Int) (a6 : Option Val) (a7 a8 : Int) (a9 : Option Val)
    (a10 : Int → Option (Option Val)) (a11 : Int → Option Val → Finset String) :
    (Node.mk a1 a2 a3 a4 a5 a6 a7 a8 a9 a10 a11).promised_proposal_id = a7 := rfl

theorem Node_mk_learned (a1 : String) (a2 : Int) (a3 : Option Val) (a4 : Finset String)
    (a5 : Int) (a6 : Option Val) (a7 a8 : Int) (a9 : Option Val)
    (a10 : Int → Option (Option Val)) (a11 : Int → Option Val → Finset String) :
    (Node.mk a1 a2 a3 a4 a5 a6 a7 a8 a9 a10 a11).learned_values = a10 := rfl

theorem Node_mk_counts (a1 : String) (a2 : Int) (a3 : Option Val) (a4 : Finset String)
    (a5 : Int) (a6 : Option Val) (a7 a8 : Int) (a9 : Option Val)
    (a10 : Int → Option (Option Val)) (a11 : Int → Option Val → Finset String) :
    (Node.mk a1 a2 a3 a4 a5 a6 a7 a8 a9 a10 a11).accept_counts = a11 := rfl

theorem inv_deliver_promise (S : Sys Val) (sent : List (Message Val)) (h : Inv S sent)
    (i : Nat) (m : Message Val) (hm : S.inflight[i]? = some m)
    (hx : m.receiver_id ∈ S.members) (hty : m.msg_type = .PROMISE) :
    Inv (stepOut S (.deliver i)).1 (sent ++ (stepOut S (.deliver i)).2) := by
  have hmsent : m ∈ sent := h.inflight_sent m (mem_of_getElem?_eq_some hm)
  rw [stepOut_deliver_mem hm hx]
  dsimp only
  rw [receive_msg_promise hty]
  by_cases hpid : m.proposal_id = (S.state m.receiver_id).proposal_id
  case neg =>
    rw [RPSA_stale hpid]
    dsimp only
    rw [updState_self, List.append_nil, List.append_nil]
    have hbase := inv_eraseIdx S sent h i m hm
    refine ⟨hbase.node_id_eq, hbase.inflight_sent, hbase.sender_mem,
      hbase.sender_ne_receiver, hbase.promised_ge, hbase.prom_unique,
      hbase.promrecv_sub, ?_, hbase.accept_uniq, hbase.accepted_src,
      hbase.counts_src, hbase.learned_src⟩
    exact hbase.budget
  case pos =>
    by_cases hq : majority_threshold S.members.length ≤
        (insert m.sender_id (S.state m.receiver_id).promises_received).card
    case neg =>
      rcases RPSA_noquorum hpid hq with ⟨hi, hv, heq⟩
      rw [heq]
      dsimp only
      rw [List.append_nil, List.append_nil]
      refine ⟨?_, ?_, ?_, ?_, ?_, ?_, ?_, ?_, ?_, ?_, ?_, ?_⟩ <;>
        dsimp only [Sys_mk_members, Sys_mk_state, Sys_mk_inflight]
      · intro p
        rw [updState_apply]
        split
        · rename_i hp
          rw [hp]
          exact h.node_id_eq m.receiver_id
        · exact h.node_id_eq p
      · intro mm hmm
        exact h.inflight_sent mm (mem_of_mem_eraseIdx hmm)
      · exact h.sender_mem
      · exact h.sender_ne_receiver
      · intro mm hmm htyp
        have hle := h.promised_ge mm hmm htyp
        rw [updState_apply]
        split
        · rename_i hp
          rw [hp] at hle
          exact hle
        · exact hle
      · exact h.prom_unique
      · intro p
        rw [updState_apply]
        split
        · rename_i hp
          rw [hp]
          show insert m.sender_id (S.state m.receiver_id).promises_received ⊆
            promisers sent (S.state m.receiver_id).proposal_id m.receiver_id
          refine Finset.insert_subset_iff.mpr ⟨?_, h.promrecv_sub m.receiver_id⟩
          exact mem_promisers.mpr ⟨m, hmsent, hty, hpid, rfl, rfl⟩
        · exact h.promrecv_sub p
      · intro p hp k
        have hb := h.budget p hp k
        rw [budgetLHS] at hb ⊢
        dsimp only [Sys_mk_members, Sys_mk_state, Sys_mk_inflight]
        rw [updState_apply]
        by_cases hpx : p = m.receiver_id
        · rw [if_pos hpx]
          subst hpx
          dsimp only [Node_mk_proposal_id, Node_mk_promises]
          have hcard := Finset.card_insert_le m.sender_id
            (S.state m.receiver_id).promises_received
          by_cases hk : (S.state m.receiver_id).proposal_id = k
          · rw [if_pos hk]
            rw [if_pos hk] at hb
            have hpend : (promsTo S.inflight k m.receiver_id).length =
                (promsTo (S.inflight.eraseIdx i) k m.receiver_id).length + 1 :=
              promsTo_eraseIdx_eq S.inflight i m hm k m.receiver_id
                ⟨hty, hk ▸ hpid, rfl⟩
            omega
          · rw [if_neg hk]
            rw [if_neg hk] at hb
            have hle := promsTo_eraseIdx_le S.inflight i m hm k m.receiver_id
            omega
        · rw [if_neg hpx]
          have hpend : (promsTo (S.inflight.eraseIdx i) k p).length =
              (promsTo S.inflight k p).length := by
            apply promsTo_eraseIdx_eq_of_not S.inflight i m hm
            intro hc
            exact hpx hc.2.2.symm
          omega
      · exact h.accept_uniq
      · exact h.accepted_src
      · intro p k vv hne
        rw [updState_apply] at hne
        by_cases hp : p = m.receiver_id
        · rw [if_pos hp] at hne
          exact h.counts_src m.receiver_id k vv hne
        · rw [if_neg hp] at hne
          exact h.counts_src p k vv hne
      · intro p k vv hne
        rw [updState_apply] at hne
        by_cases hp : p = m.receiver_id
        · rw [if_pos hp] at hne
          exact h.learned_src m.receiver_id k vv hne
        · rw [if_neg hp] at hne
          exact h.learned_src p k vv hne
    case pos =>
      rcases RPSA_quorum hpid hq with ⟨hi, hv, va, heq⟩
      rw [heq]
      dsimp only
      have houtm : ∀ mm ∈ broadcast S.members
          ({ msg_type := .ACCEPT, proposal_id := (S.state m.receiver_id).proposal_id,
             sender_id := (S.state m.receiver_id).node_id, receiver_id := "broadcast",
             value := va } : Message Val) (some (S.state m.receiver_id).node_id),
          mm.msg_type = .ACCEPT ∧ mm.proposal_id = (S.state m.receiver_id).proposal_id ∧
            mm.sender_id = m.receiver_id ∧ mm.value = va ∧
            mm.receiver_id ∈ S.members ∧ mm.receiver_id ≠ m.receiver_id := by
        intro mm hmm
        have hb := broadcast_fields hmm
        refine ⟨hb.1, hb.2.1, ?_, hb.2.2.2.1, hb.2.2.2.2.1, ?_⟩
        · rw [hb.2.2.1]
          exact h.node_id_eq m.receiver_id
        · rw [← h.node_id_eq m.receiver_id]
          exact hb.2.2.2.2.2
      -- the promises backing the new ACCEPT are all recorded in `sent`
      have hsub : insert m.sender_id (S.state m.receiver_id).promises_received ⊆
          promisers sent (S.state m.receiver_id).proposal_id m.receiver_id := by
        refine Finset.insert_subset_iff.mpr ⟨?_, h.promrecv_sub m.receiver_id⟩
        exact mem_promisers.mpr ⟨m, hmsent, hty, hpid, rfl, rfl⟩
      have hcard_x : majority_threshold S.members.length ≤
          (promisers sent (S.state m.receiver_id).proposal_id m.receiver_id).card :=
        hq.trans (Finset.card_le_card hsub)
      -- a bound valid for the promisers of any member `r`
      have hbound : ∀ r ∈ S.members,
          (promisers sent (S.state m.receiver_id).proposal_id r).card ≤
            S.members.length - 1 := by
        intro r hr
        have hsub2 : promisers sent (S.state m.receiver_id).proposal_id r ⊆
            S.members.toFinset.erase r := by
          intro y hy
          rcases mem_promisers.mp hy with ⟨mm, hmm, ht2, hk2, hr2, hs2⟩
          refine Finset.mem_erase.mpr ⟨?_, List.mem_toFinset.mpr ?_⟩
          · rw [← hs2, ← hr2]
            exact h.sender_ne_receiver mm hmm
          · rw [← hs2]
            exact h.sender_mem mm hmm
        have h1 := Finset.card_le_card hsub2
        have h2 : (S.members.toFinset.erase r).card = S.members.toFinset.card - 1 :=
          Finset.card_erase_of_mem (List.mem_toFinset.mpr hr)
        have h3 := S.members.toFinset_card_le
        omega
      -- no ACCEPT for this ballot was ever sent before, by anyone
      have hno_old : ∀ m1 ∈ sent, m1.msg_type = .ACCEPT →
          m1.proposal_id = (S.state m.receiver_id).proposal_id → False := by
        intro m1 hm1 ht1 hp1
        by_cases hqx : m1.sender_id = m.receiver_id
        · -- same proposer: a full quorum was already spent at this ballot
          have hflag : spentFlag sent m.receiver_id
              (S.state m.receiver_id).proposal_id = 1 :=
            spentFlag_eq_one_of_mem hm1 ht1 hqx hp1
          have hbx := h.budget m.receiver_id hx (S.state m.receiver_id).proposal_id
          rw [budgetLHS, hflag, if_pos rfl] at hbx
          have hins := Finset.card_insert_le m.sender_id
            (S.state m.receiver_id).promises_received
          have hb1 := hbound m.receiver_id hx
          rw [majority_threshold] at hbx hq
          omega
        · -- different proposer: two disjoint quorums at one ballot are impossible
          have hqmem : m1.sender_id ∈ S.members := h.sender_mem m1 hm1
          have hflagq : spentFlag sent m1.sender_id
              (S.state m.receiver_id).proposal_id = 1 :=
            spentFlag_eq_one_of_mem hm1 ht1 rfl hp1
          have hbq := h.budget m1.sender_id hqmem (S.state m.receiver_id).proposal_id
          rw [budgetLHS, hflagq] at hbq
          have hdisj : Disjoint
              (promisers sent (S.state m.receiver_id).proposal_id m.receiver_id)
              (promisers sent (S.state m.receiver_id).proposal_id m1.sender_id) := by
            rw [Finset.disjoint_left]
            intro y hy1 hy2
            rcases mem_promisers.mp hy1 with ⟨mma, hmma, hta, hka, hra, hsa⟩
            rcases mem_promisers.mp hy2 with ⟨mmb, hmmb, htb, hkb, hrb, hsb⟩
            have hne : mma ≠ mmb := by
              intro he
              apply hqx
              rw [← hrb, ← he, hra]
            have hma : mma ∈ promsBySender sent y (S.state m.receiver_id).proposal_id :=
              mem_promsBySender.mpr ⟨hmma, hta, hsa, hka⟩
            have hmb : mmb ∈ promsBySender sent y (S.state m.receiver_id).proposal_id :=
              mem_promsBySender.mpr ⟨hmmb, htb, hsb, hkb⟩
            have h2 := two_le_length_of_mem_ne hma hmb hne
            have h1 := h.prom_unique y (S.state m.receiver_id).proposal_id
            omega
          have hsubU :
              promisers sent (S.state m.receiver_id).proposal_id m.receiver_id ∪
                promisers sent (S.state m.receiver_id).proposal_id m1.sender_id ⊆
              S.members.toFinset := by
            intro y hy
            rcases Finset.mem_union.mp hy with hy | hy
            · rcases mem_promisers.mp hy with ⟨mm, hmm, _, _, _, hs2⟩
              rw [← hs2]
              exact List.mem_toFinset.mpr (h.sender_mem mm hmm)
            · rcases mem_promisers.mp hy with ⟨mm, hmm, _, _, _, hs2⟩
              rw [← hs2]
              exact List.mem_toFinset.mpr (h.sender_mem mm hmm)
          have hcardU := Finset.card_le_card hsubU
          rw [Finset.card_union_of_disjoint hdisj] at hcardU
          have h3 := S.members.toFinset_card_le
          rw [majority_threshold] at hbq hcard_x
          omega
      have hflag0 : spentFlag sent m.receiver_id (S.state m.receiver_id).proposal_id
          = 0 := by
        rw [spentFlag, if_pos]
        apply acceptsBy_eq_nil
        intro mm hmm hc
        exact hno_old mm hmm hc.1 hc.2.2
      refine ⟨?_, ?_, ?_, ?_, ?_, ?_, ?_, ?_, ?_, ?_, ?_, ?_⟩ <;>
        dsimp only [Sys_mk_members, Sys_mk_state, Sys_mk_inflight]
      · intro p
        rw [updState_apply]
        split
        · rename_i hp
          rw [hp]
          exact h.node_id_eq m.receiver_id
        · exact h.node_id_eq p
      · intro mm hmm
        rcases List.mem_append.mp hmm with hmm | hmm
        · exact List.mem_append_left _ (h.inflight_sent mm (mem_of_mem_eraseIdx hmm))
        · exact List.mem_append_right _ hmm
      · intro mm hmm
        rcases List.mem_append.mp hmm with hmm | hmm
        · exact h.sender_mem mm hmm
        · rw [(houtm mm hmm).2.2.1]
          exact hx
      · intro mm hmm
        rcases List.mem_append.mp hmm with hmm | hmm
        · exact h.sender_ne_receiver mm hmm
        · rcases houtm mm hmm with ⟨_, _, hs, _, _, hr⟩
          rw [hs]
          exact fun he => hr he.symm
      · intro mm hmm htyp
        rcases List.mem_append.mp hmm with hmm | hmm
        · have hle := h.promised_ge mm hmm htyp
          rw [updState_apply]
          split
          · rename_i hp
            rw [hp] at hle
            exact hle
          · exact hle
        · have h1 := (houtm mm hmm).1
          rw [htyp] at h1
          simp at h1
      · intro y k
        have hzero : promsBySender (broadcast S.members
            ({ msg_type := .ACCEPT, proposal_id := (S.state m.receiver_id).proposal_id,
               sender_id := (S.state m.receiver_id).node_id, receiver_id := "broadcast",
               value := va } : Message Val) (some (S.state m.receiver_id).node_id)) y k
            = [] := by
          apply promsBySender_eq_nil
          intro mm hmm hc
          have h1 := (houtm mm hmm).1
          rw [hc.1] at h1
          simp at h1
        rw [promsBySender_append, hzero, List.append_nil]
        exact h.prom_unique y k
      · intro p
        rw [updState_apply]
        split
        · rename_i hp
          rw [hp]
          dsimp only [Node_mk_promises]
          exact Finset.empty_subset _
        · exact (h.promrecv_sub p).trans (promisers_subset_append _ _ _ _)
      · intro p hp k
        have hb := h.budget p hp k
        rw [budgetLHS] at hb ⊢
        dsimp only [Sys_mk_members, Sys_mk_state, Sys_mk_inflight]
        have hero : promsTo (broadcast S.members
            ({ msg_type := .ACCEPT, proposal_id := (S.state m.receiver_id).proposal_id,
               sender_id := (S.state m.receiver_id).node_id, receiver_id := "broadcast",
               value := va } : Message Val) (some (S.state m.receiver_id).node_id)) k p
            = [] := by
          apply promsTo_eq_nil
          intro mm hmm hc
          have h1 := (houtm mm hmm).1
          rw [hc.1] at h1
          simp at h1
        rw [promsTo_append, List.length_append, hero,
          promisers_append_eq hero, updState_apply]
        simp only [List.length_nil]
        by_cases hpx : p = m.receiver_id
        · rw [if_pos hpx]
          subst hpx
          dsimp only [Node_mk_proposal_id, Node_mk_promises]
          by_cases hk : (S.state m.receiver_id).proposal_id = k
          · rw [if_pos hk]
            rw [if_pos hk] at hb
            subst hk
            rw [hflag0] at hb
            have hpend : (promsTo S.inflight (S.state m.receiver_id).proposal_id
                m.receiver_id).length =
                (promsTo (S.inflight.eraseIdx i) (S.state m.receiver_id).proposal_id
                  m.receiver_id).length + 1 :=
              promsTo_eraseIdx_eq S.inflight i m hm _ m.receiver_id ⟨hty, hpid, rfl⟩
            have hins := Finset.card_insert_le m.sender_id
              (S.state m.receiver_id).promises_received
            have hflagle := spentFlag_le_one (sent ++ broadcast S.members
              ({ msg_type := .ACCEPT, proposal_id := (S.state m.receiver_id).proposal_id,
                 sender_id := (S.state m.receiver_id).node_id, receiver_id := "broadcast",
                 value := va } : Message Val) (some (S.state m.receiver_id).node_id))
              m.receiver_id (S.state m.receiver_id).proposal_id
            have hprodle : majority_threshold S.members.length * spentFlag (sent ++
                broadcast S.members
                ({ msg_type := .ACCEPT, proposal_id := (S.state m.receiver_id).proposal_id,
                   sender_id := (S.state m.receiver_id).node_id, receiver_id := "broadcast",
                   value := va } : Message Val) (some (S.state m.receiver_id).node_id))
                m.receiver_id (S.state m.receiver_id).proposal_id ≤
                majority_threshold S.members.length := by
              calc majority_threshold S.members.length * _ ≤
                  majority_threshold S.members.length * 1 :=
                    Nat.mul_le_mul_left _ hflagle
                _ = majority_threshold S.members.length := Nat.mul_one _
            simp only [Finset.card_empty]
            omega
          · rw [if_neg hk]
            rw [if_neg hk] at hb
            have hpend : (promsTo (S.inflight.eraseIdx i) k m.receiver_id).length =
                (promsTo S.inflight k m.receiver_id).length := by
              apply promsTo_eraseIdx_eq_of_not S.inflight i m hm
              intro hc
              exact hk (hpid.symm.trans hc.2.1)
            have hspent : spentFlag (sent ++ broadcast S.members
                ({ msg_type := .ACCEPT, proposal_id := (S.state m.receiver_id).proposal_id,
                   sender_id := (S.state m.receiver_id).node_id, receiver_id := "broadcast",
                   value := va } : Message Val) (some (S.state m.receiver_id).node_id))
                m.receiver_id k = spentFlag sent m.receiver_id k := by
              apply spentFlag_append_eq
              apply acceptsBy_eq_nil
              intro mm hmm hc
              exact hk (((houtm mm hmm).2.1).symm.trans hc.2.2)
            rw [hspent]
            omega
        · rw [if_neg hpx]
          have hpend : (promsTo (S.inflight.eraseIdx i) k p).length =
              (promsTo S.inflight k p).length := by
            apply promsTo_eraseIdx_eq_of_not S.inflight i m hm
            intro hc
            exact hpx hc.2.2.symm
          have hspent : spentFlag (sent ++ broadcast S.members
              ({ msg_type := .ACCEPT, proposal_id := (S.state m.receiver_id).proposal_id,
                 sender_id := (S.state m.receiver_id).node_id, receiver_id := "broadcast",
                 value := va } : Message Val) (some (S.state m.receiver_id).node_id))
              p k = spentFlag sent p k := by
            apply spentFlag_append_eq
            apply acceptsBy_eq_nil
            intro mm hmm hc
            exact hpx (hc.2.1.symm.trans ((houtm mm hmm).2.2.1))
          rw [hspent]
          omega
      · intro m1 hm1 m2 hm2 ht1 ht2 hpid12
        rcases List.mem_append.mp hm1 with hm1 | hm1
        · rcases List.mem_append.mp hm2 with hm2 | hm2
          · exact h.accept_uniq m1 hm1 m2 hm2 ht1 ht2 hpid12
          · exact absurd (hpid12.trans (houtm m2 hm2).2.1)
              (fun hc => hno_old m1 hm1 ht1 hc)
        · rcases List.mem_append.mp hm2 with hm2 | hm2
          · exact absurd ((houtm m1 hm1).2.1.symm.trans hpid12).symm
              (fun hc => hno_old m2 hm2 ht2 hc)
          · rw [(houtm m1 hm1).2.2.2.1, (houtm m2 hm2).2.2.2.1]
      · intro mm hmm htyp
        rcases List.mem_append.mp hmm with hmm | hmm
        · rcases h.accepted_src mm hmm htyp with ⟨m2, hm2, hrest⟩
          exact ⟨m2, List.mem_append_left _ hm2, hrest⟩
        · have h1 := (houtm mm hmm).1
          rw [htyp] at h1
          simp at h1
      · intro p k vv hne
        rw [updState_apply] at hne
        by_cases hp : p = m.receiver_id
        · rw [if_pos hp] at hne
          rcases h.counts_src m.receiver_id k vv hne with ⟨m2, hm2, hrest⟩
          exact ⟨m2, List.mem_append_left _ hm2, hrest⟩
        · rw [if_neg hp] at hne
          rcases h.counts_src p k vv hne with ⟨m2, hm2, hrest⟩
          exact ⟨m2, List.mem_append_left _ hm2, hrest⟩
      · intro p k vv hne
        rw [updState_apply] at hne
        by_cases hp : p = m.receiver_id
        · rw [if_pos hp] at hne
          rcases h.learned_src m.receiver_id k vv hne with ⟨m2, hm2, hrest⟩
          exact ⟨m2, List.mem_append_left _ hm2, hrest⟩
        · rw [if_neg hp] at hne
          rcases h.learned_src p k vv hne with ⟨m2, hm2, hrest⟩
          exact ⟨m2, List.mem_append_left _ hm2, hrest⟩

theorem inv_step (S : Sys Val) (sent : List (Message Val)) (e : Event Val)
    (h : Inv S sent) : Inv (stepOut S e).1 (sent ++ (stepOut S e).2) := by
  cases e with
  | propose nid now v => exact inv_propose S sent h nid now v
  | deliver i =>
    cases hm : S.inflight[i]? with
    | none => exact inv_deliver_none S sent h i hm
    | some m =>
      by_cases hx : m.receiver_id ∈ S.members
      · cases hty : m.msg_type with
        | PREPARE => exact inv_deliver_prepare S sent h i m hm hx hty
        | PROMISE => exact inv_deliver_promise S sent h i m hm hx hty
        | ACCEPT => exact inv_deliver_accept S sent h i m hm hx hty
        | ACCEPTED => exact inv_deliver_accepted S sent h i m hm hx hty
      · exact inv_deliver_drop S sent h i m hm hx

theorem inv_runT (events : List (Event Val)) :
    ∀ p : Sys Val × List (Message Val), Inv p.1 p.2 →
      Inv (runT p events).1 (runT p events).2 := by
  induction events with
  | nil => exact fun p hp => hp
  | cons e t ih =>
    intro p hp
    exact ih (stepT p e) (inv_step p.1 p.2 e hp)

theorem inv_run (members : List String) (events : List (Event Val)) :
    Inv (run (initSys members) events)
      ((runT ((initSys members : Sys Val), []) events).2) := by
  have h := inv_runT events ((initSys members : Sys Val), []) (inv_init members)
  rwa [runT_fst] at h

/-! ## Claim C1 -/

/-- C1: No-fork safety.  For every reachable system state under any sequence of
`propose` calls and message deliveries, and for every `proposal_id` `k`, if
`learned_values[k]` is set on any two nodes then the two values are equal;
moreover at most one value ever accumulates ACCEPTED senders for `k`
system-wide (so in particular at most one value can reach quorum). -/
theorem C1_no_fork_safety (members : List String) (events : List (Event Val))
    (k : Int) (p q : String) :
    (∀ vp vq, ((run (initSys members) events).state p).learned_values k = some vp →
        ((run (initSys members) events).state q).learned_values k = some vq →
        vp = vq) ∧
    (∀ v1 v2, (((run (initSys members) events).state p).accept_counts k v1).Nonempty →
        (((run (initSys members) events).state q).accept_counts k v2).Nonempty →
        v1 = v2) := by
  have hinv := inv_run members events
  constructor
  · intro vp vq hp hq
    rcases hinv.learned_src p k vp hp with ⟨m1, hm1, ht1, hk1, hv1⟩
    rcases hinv.learned_src q k vq hq with ⟨m2, hm2, ht2, hk2, hv2⟩
    have huniq := hinv.accept_uniq m1 hm1 m2 hm2 ht1 ht2 (hk1.trans hk2.symm)
    rw [hv1, hv2] at huniq
    exact huniq
  · intro v1 v2 h1 h2
    rcases hinv.counts_src p k v1 h1 with ⟨m1, hm1, ht1, hk1, hv1⟩
    rcases hinv.counts_src q k v2 h2 with ⟨m2, hm2, ht2, hk2, hv2⟩
    have huniq := hinv.accept_uniq m1 hm1 m2 hm2 ht1 ht2 (hk1.trans hk2.symm)
    rw [hv1, hv2] at huniq
    exact huniq

/-- A concrete 3-node execution in which nodes A, B and C all learn a value
for proposal 10: A proposes "x" at clock 10, B and C promise, A reaches the
quorum of 2 and broadcasts ACCEPT, B and C accept and broadcast ACCEPTED, and
the learners count the quorum. -/
def c1_events : List (Event String) :=
  [.propose "A" 10 "x",
   .deliver 0, .deliver 0, .deliver 0, .deliver 0,
   .deliver 0, .deliver 1, .deliver 0, .deliver 1,
   .deliver 0, .deliver 0]

theorem C1_no_fork_safety_witness :
    (((run (initSys ["A", "B", "C"]) c1_events).state "A").learned_values 10 =
        some (some "x")) ∧
    (((run (initSys ["A", "B", "C"]) c1_events).state "B").learned_values 10 =
        some (some "x")) ∧
    ((some "x" : Option String) = some "x") :=
  ⟨by decide, by decide,
    (C1_no_fork_safety ["A", "B", "C"] c1_events 10 "A" "B").1 (some "x") (some "x")
      (by decide) (by decide)⟩

/-! ## Node-level lemmas for the remaining claims -/

theorem handle_accepted_keeps_acceptor (members : List String) (n : Node Val)
    (m : Message Val) :
    (handle_accepted members n m).1.accepted_proposal_id = n.accepted_proposal_id ∧
    (handle_accepted members n m).1.accepted_value = n.accepted_value :=
  ⟨rfl, rfl⟩

theorem receive_message_promised_mono (members : List String) (n : Node Val)
    (m : Message Val) :
    n.promised_proposal_id ≤ (receive_message members n m).1.promised_proposal_id := by
  rw [receive_message_eq]
  cases hty : m.msg_type
  case PREPARE =>
    by_cases hgt : m.proposal_id > n.promised_proposal_id
    · rw [RPSP_pos hgt]
      exact le_of_lt hgt
    · rw [RPSP_neg hgt]
  case PROMISE =>
    by_cases hpid : m.proposal_id = n.proposal_id
    · by_cases hq : majority_threshold members.length ≤
          (insert m.sender_id n.promises_received).card
      · rcases RPSA_quorum hpid hq with ⟨hi, hv, va, heq⟩
        rw [heq]
      · rcases RPSA_noquorum hpid hq with ⟨hi, hv, heq⟩
        rw [heq]
    · rw [RPSA_stale hpid]
  case ACCEPT =>
    by_cases hge : m.proposal_id ≥ n.promised_proposal_id
    · rw [RASA_pos hge]
    · rw [RASA_neg hge]
  case ACCEPTED =>
    rw [(handle_accepted_keeps members n m).2.2.2]

theorem step_promised_mono (s : Sys Val) (e : Event Val) (p : String) :
    (s.state p).promised_proposal_id ≤ ((step s e).state p).promised_proposal_id := by
  cases e with
  | propose nid now v =>
    by_cases hmem : nid ∈ s.members
    · rw [step, stepOut_propose_mem hmem]
      dsimp only
      rw [updState_apply]
      split
      · rename_i hp
        rw [hp]
        exact le_refl _
      · exact le_refl _
    · rw [step, stepOut_propose_not_mem hmem]
  | deliver i =>
    cases hm : s.inflight[i]? with
    | none => rw [step, stepOut_deliver_none hm]
    | some m =>
      by_cases hx : m.receiver_id ∈ s.members
      · rw [step, stepOut_deliver_mem hm hx]
        dsimp only
        rw [updState_apply]
        split
        · rename_i hp
          rw [hp]
          exact receive_message_promised_mono s.members (s.state m.receiver_id) m
        · exact le_refl _
      · rw [step, stepOut_deliver_drop hm hx]

theorem run_promised_mono (s : Sys Val) (events : List (Event Val)) (p : String) :
    (s.state p).promised_proposal_id ≤ ((run s events).state p).promised_proposal_id := by
  induction events generalizing s with
  | nil => exact le_refl _
  | cons e t ih =>
    exact le_trans (step_promised_mono s e p) (ih (step s e))

theorem handle_accepted_learned_persist (members : List String) (n : Node Val)
    (m : Message Val) (k : Int) (v : Option Val) (h : n.learned_values k = some v) :
    (handle_accepted members n m).1.learned_values k = some v := by
  have hsplit : ((handle_accepted members n m).1.learned_values =
      (fun kk => if kk = m.proposal_id then some m.value else n.learned_values kk) ∧
      n.learned_values m.proposal_id = none) ∨
      (handle_accepted members n m).1.learned_values = n.learned_values := by
    simp only [handle_accepted]
    split <;> split
    · rename_i hc; exact Or.inl ⟨rfl, hc.2⟩
    · exact Or.inr rfl
    · rename_i hc; exact Or.inl ⟨rfl, hc.2⟩
    · exact Or.inr rfl
  rcases hsplit with ⟨hs, hnone⟩ | hs
  · rw [hs]
    have hk : k ≠ m.proposal_id := by
      intro he
      rw [he, hnone] at h
      exact Option.noConfusion h
    have hb : (if k = m.proposal_id then some m.value else n.learned_values k) = some v := by
      rw [if_neg hk]
      exact h
    exact hb
  · rw [hs]
    exact h

theorem receive_message_learned_persist (members : List String) (n : Node Val)
    (m : Message Val) (k : Int) (v : Option Val) (h : n.learned_values k = some v) :
    (receive_message members n m).1.learned_values k = some v := by
  rw [receive_message_eq]
  cases hty : m.msg_type
  case PREPARE =>
    by_cases hgt : m.proposal_id > n.promised_proposal_id
    · rw [RPSP_pos hgt]
      exact h
    · rw [RPSP_neg hgt]
      exact h
  case PROMISE =>
    by_cases hpid : m.proposal_id = n.proposal_id
    · by_cases hq : majority_threshold members.length ≤
          (insert m.sender_id n.promises_received).card
      · rcases RPSA_quorum hpid hq with ⟨hi, hv, va, heq⟩
        rw [heq]
        exact h
      · rcases RPSA_noquorum hpid hq with ⟨hi, hv, heq⟩
        rw [heq]
        exact h
    · rw [RPSA_stale hpid]
      exact h
  case ACCEPT =>
    by_cases hge : m.proposal_id ≥ n.promised_proposal_id
    · rw [RASA_pos hge]
      exact h
    · rw [RASA_neg hge]
      exact h
  case ACCEPTED =>
    exact handle_accepted_learned_persist members n m k v h

theorem step_learned_persist (s : Sys Val) (e : Event Val) (p : String) (k : Int)
    (v : Option Val) (h : (s.state p).learned_values k = some v) :
    ((step s e).state p).learned_values k = some v := by
  cases e with
  | propose nid now v2 =>
    by_cases hmem : nid ∈ s.members
    · rw [step, stepOut_propose_mem hmem]
      dsimp only
      rw [updState_apply]
      split
      · rename_i hp
        rw [hp] at h
        exact h
      · exact h
    · rw [step, stepOut_propose_not_mem hmem]
      exact h
  | deliver i =>
    cases hm : s.inflight[i]? with
    | none =>
      rw [step, stepOut_deliver_none hm]
      exact h
    | some m =>
      by_cases hx : m.receiver_id ∈ s.members
      · rw [step, stepOut_deliver_mem hm hx]
        dsimp only
        rw [updState_apply]
        split
        · rename_i hp
          rw [hp] at h
          exact receive_message_learned_persist s.members (s.state m.receiver_id) m k v h
        · exact h
      · rw [step, stepOut_deliver_drop hm hx]
        exact h

theorem run_learned_persist (s : Sys Val) (events : List (Event Val)) (p : String)
    (k : Int) (v : Option Val) (h : (s.state p).learned_values k = some v) :
    ((run s events).state p).learned_values k = some v := by
  induction events generalizing s with
  | nil => exact h
  | cons e t ih =>
    exact ih (step s e) (step_learned_persist s e p k v h)

/-- As `RPSA_quorum`, but exposing how the ACCEPT value is selected from the
post-state's `highest_accepted_value` (Python: `value_to_accept`). -/
theorem RPSA_quorum_val {members : List String} {n : Node Val} {m : Message Val}
    (hpid : m.proposal_id = n.proposal_id)
    (hq : majority_threshold members.length ≤
        (insert m.sender_id n.promises_received).card) :
    ∃ hi hv, ReceivePromiseSendAccept members n m =
      ({ n with promises_received := ∅,
                highest_accepted_id := hi, highest_accepted_value := hv },
       broadcast members
         { msg_type := .ACCEPT, proposal_id := n.proposal_id, sender_id := n.node_id,
           receiver_id := "broadcast",
           value := (match hv with
             | some u => some u
             | none => n.current_proposal_value) } (some n.node_id)) := by
  simp only [ReceivePromiseSendAccept, if_pos hpid]
  cases hap : m.accepted_proposal_id with
  | none =>
    cases hhv : n.highest_accepted_value with
    | none => exact ⟨n.highest_accepted_id, none, by simp [hq, hhv]⟩
    | some w => exact ⟨n.highest_accepted_id, some w, by simp [hq, hhv]⟩
  | some apid =>
    cases hav : m.accepted_value with
    | none =>
      cases hhv : n.highest_accepted_value with
      | none => exact ⟨n.highest_accepted_id, none, by simp [hq, hhv]⟩
      | some w => exact ⟨n.highest_accepted_id, some w, by simp [hq, hhv]⟩
    | some av =>
      by_cases hgt : apid > n.highest_accepted_id
      · exact ⟨apid, some av, by simp [hq, hgt]⟩
      · cases hhv : n.highest_accepted_value with
        | none => exact ⟨n.highest_accepted_id, none, by simp [hq, hgt, hhv]⟩
        | some w => exact ⟨n.highest_accepted_id, some w, by simp [hq, hgt, hhv]⟩

/-- Whenever the proposer's post-state records an adopted value, every ACCEPT
message it emits carries exactly that value. -/
theorem RPSA_out_value {members : List String} {n : Node Val} {m : Message Val}
    {w : Val}
    (hw : (ReceivePromiseSendAccept members n m).1.highest_accepted_value = some w) :
    ∀ mm ∈ (ReceivePromiseSendAccept members n m).2, mm.value = some w := by
  by_cases hpid : m.proposal_id = n.proposal_id
  case neg =>
    rw [RPSA_stale hpid]
    intro mm hmm
    simp at hmm
  case pos =>
    by_cases hq : majority_threshold members.length ≤
        (insert m.sender_id n.promises_received).card
    case neg =>
      rcases RPSA_noquorum hpid hq with ⟨hi, hv, heq⟩
      rw [heq]
      intro mm hmm
      simp at hmm
    case pos =>
      rcases RPSA_quorum_val hpid hq with ⟨hi, hv, heq⟩
      rw [heq] at hw ⊢
      have hveq : hv = some w := hw
      subst hveq
      intro mm hmm
      exact (broadcast_fields hmm).2.2.2.1

/-- The adoption step itself: a promise carrying a strictly higher prior
accepted pair overwrites the proposer's best-seen pair. -/
theorem RPSA_adopt {members : List String} {n : Node Val} {m : Message Val}
    {i : Int} {v : Val}
    (hpid : m.proposal_id = n.proposal_id) (hap : m.accepted_proposal_id = some i)
    (hav : m.accepted_value = some v) (hgt : i > n.highest_accepted_id) :
    (ReceivePromiseSendAccept members n m).1.highest_accepted_id = i ∧
    (ReceivePromiseSendAccept members n m).1.highest_accepted_value = some v := by
  simp only [ReceivePromiseSendAccept, if_pos hpid, hap, hav]
  rw [if_pos hgt]
  split <;> exact ⟨rfl, rfl⟩

/-! ## Claim C2 -/

/-- C2 (counterexample): `propose` does not generate proposal ids strictly
greater than every id the node previously generated.  The id is the raw
wall-clock reading `int(time.time() * 1000000)`; two `propose` calls within
the same microsecond (clock reading 5 both times) yield the same id, not a
strictly greater one. -/
theorem C2_counterexample :
    ((propose ["A", "B", "C"]
        (propose ["A", "B", "C"] (initNode "A") 5 "x").1 5 "y").1.proposal_id =
      (propose ["A", "B", "C"] (initNode "A") 5 "x").1.proposal_id) ∧
    ¬((propose ["A", "B", "C"]
        (propose ["A", "B", "C"] (initNode "A") 5 "x").1 5 "y").1.proposal_id >
      (propose ["A", "B", "C"] (initNode "A") 5 "x").1.proposal_id) := by
  constructor
  · rfl
  · decide

/-- C2 (amended): `propose` sets the node's `proposal_id` to exactly the
wall-clock microsecond reading `int(time.time() * 1000000)` taken during the
call — not to a value from a monotonic logical counter — so the new id is
strictly greater than the previous one exactly when the clock reading is. -/
theorem C2_id_is_clock_reading (members : List String) (n : Node Val) (now : Int)
    (v : Val) :
    ((propose members n now v).1.proposal_id = now) ∧
    (now > n.proposal_id → (propose members n now v).1.proposal_id > n.proposal_id) := by
  refine ⟨rfl, ?_⟩
  intro hgt
  exact hgt

theorem C2_id_is_clock_reading_witness :
    ((propose ["A"] (initNode "A") 7 "x").1.proposal_id = 7) ∧
    ((7 : Int) > (initNode "A" : Node String).proposal_id) ∧
    ((propose ["A"] (initNode "A") 7 "x").1.proposal_id >
      (initNode "A" : Node String).proposal_id) :=
  ⟨(C2_id_is_clock_reading ["A"] (initNode "A") 7 "x").1, by decide,
    (C2_id_is_clock_reading ["A"] (initNode "A") 7 "x").2 (by decide)⟩

theorem broadcast_receivers (members : List String) (base : Message Val) (x : String) :
    (broadcast members base (some x)).map Message.receiver_id =
      members.filter (fun nid => decide (nid ≠ x)) := by
  rw [broadcast, List.map_map]
  have hcomp : (Message.receiver_id ∘
      fun nid => ({ base with receiver_id := nid } : Message Val)) =
      (id : String → String) := rfl
  rw [hcomp, List.map_id]
  apply List.filter_congr
  intro a _
  simp

/-! ## Claim C3 -/

/-- C3 (counterexample): the ACCEPTED broadcast does NOT include the accepting
node itself.  Node "A" (promised -1) handles ACCEPT(1) in the two-node system
{"A","B"}: the resulting ACCEPTED messages go to "B" only. -/
theorem C3_counterexample :
    ((ReceiveAcceptSendAccepted ["A", "B"] (initNode "A")
        { msg_type := .ACCEPT, proposal_id := 1, sender_id := "B",
          receiver_id := "A", value := some "v" }).2.map Message.receiver_id
      = ["B"]) ∧
    ¬("A" ∈ (ReceiveAcceptSendAccepted ["A", "B"] (initNode "A")
        { msg_type := .ACCEPT, proposal_id := 1, sender_id := "B",
          receiver_id := "A", value := some "v" }).2.map Message.receiver_id) := by
  constructor
  · decide
  · decide

/-- C3 (amended): when an acceptor handles an ACCEPT with
`proposal_id ≥ promised_proposal_id`, the resulting ACCEPTED broadcast is
addressed to every member EXCEPT the accepting node itself
(`broadcast(..., exclude=self.node_id)`); the accepting node's own vote enters
its learner bookkeeping not through a delivery but through `handle_accepted`'s
self-count, which adds the node's own id whenever its acceptor state matches
the counted (proposal, value) pair. -/
theorem C3_accepted_broadcast_excludes_self (members : List String) (n : Node Val)
    (m : Message Val) :
    (m.proposal_id ≥ n.promised_proposal_id →
      ((ReceiveAcceptSendAccepted members n m).2.map Message.receiver_id =
        members.filter (fun nid => decide (nid ≠ n.node_id))) ∧
      (∀ mm ∈ (ReceiveAcceptSendAccepted members n m).2,
        mm.msg_type = .ACCEPTED ∧ mm.proposal_id = m.proposal_id ∧
          mm.value = m.value ∧ mm.sender_id = n.node_id)) ∧
    (n.accepted_proposal_id = m.proposal_id ∧ n.accepted_value = m.value →
      n.node_id ∈ (handle_accepted members n m).1.accept_counts
        m.proposal_id m.value) := by
  constructor
  · intro hge
    rw [RASA_pos hge]
    constructor
    · exact broadcast_receivers members _ n.node_id
    · intro mm hmm
      have hb := broadcast_fields hmm
      exact ⟨hb.1, hb.2.1, hb.2.2.2.1, hb.2.2.1⟩
  · intro hc
    have h1 : (handle_accepted members n m).1.accept_counts m.proposal_id m.value =
        (if n.accepted_proposal_id = m.proposal_id ∧ n.accepted_value = m.value then
          insert n.node_id (insert m.sender_id
            (n.accept_counts m.proposal_id m.value))
        else insert m.sender_id (n.accept_counts m.proposal_id m.value)) :=
      if_pos ⟨rfl, rfl⟩
    rw [h1, if_pos hc]
    exact Finset.mem_insert_self _ _

/-! ## Claim C6 -/

/-- C6: for every delivered ACCEPT message, the acceptor sets `accepted_id`
and `accepted_value` and emits the ACCEPTED broadcast exactly when
`msg.proposal_id ≥ promised_proposal_id`; otherwise it sends nothing and its
entire state is unchanged. -/
theorem C6_accept_exactly_when_ge (members : List String) (n : Node Val)
    (m : Message Val) :
    (m.proposal_id ≥ n.promised_proposal_id →
      (ReceiveAcceptSendAccepted members n m).1 =
        { n with accepted_proposal_id := m.proposal_id, accepted_value := m.value } ∧
      (ReceiveAcceptSendAccepted members n m).2 =
        broadcast members
          { msg_type := .ACCEPTED, proposal_id := m.proposal_id,
            sender_id := n.node_id, receiver_id := "broadcast", value := m.value }
          (some n.node_id)) ∧
    (¬ m.proposal_id ≥ n.promised_proposal_id →
      (ReceiveAcceptSendAccepted members n m).1 = n ∧
      (ReceiveAcceptSendAccepted members n m).2 = []) := by
  constructor
  · intro hge
    rw [RASA_pos hge]
    exact ⟨rfl, rfl⟩
  · intro hge
    rw [RASA_neg hge]
    exact ⟨rfl, rfl⟩

theorem C6_accept_exactly_when_ge_witness :
    ((1 : Int) ≥ (initNode "A" : Node String).promised_proposal_id) ∧
    ((ReceiveAcceptSendAccepted ["A", "B"] (initNode "A")
        { msg_type := .ACCEPT, proposal_id := 1, sender_id := "B",
          receiver_id := "A", value := some "v" }).1.accepted_proposal_id = 1) :=
  ⟨by decide, by
    have h := ((C6_accept_exactly_when_ge ["A", "B"] (initNode "A")
      { msg_type := .ACCEPT, proposal_id := 1, sender_id := "B",
        receiver_id := "A", value := some "v" }).1 (by decide)).1
    rw [h]⟩

/-! ## Claim C10 -/

/-- C10: a prior accepted pair in a PROMISE is adopted only when both
`accepted_proposal_id` and `accepted_value` are non-`None`.  A PROMISE for the
current proposal whose `accepted_proposal_id` is set but whose
`accepted_value` is `None` leaves `highest_accepted_id` and
`highest_accepted_value` unchanged, even at a higher id. -/
theorem C10_none_value_never_adopted (members : List String) (n : Node Val)
    (m : Message Val) (i : Int) :
    m.proposal_id = n.proposal_id → m.accepted_proposal_id = some i →
    m.accepted_value = none →
    (ReceivePromiseSendAccept members n m).1.highest_accepted_id =
        n.highest_accepted_id ∧
    (ReceivePromiseSendAccept members n m).1.highest_accepted_value =
        n.highest_accepted_value := by
  intro hpid hap hav
  simp only [ReceivePromiseSendAccept, if_pos hpid, hap, hav]
  split <;> exact ⟨rfl, rfl⟩

theorem C10_none_value_never_adopted_witness :
    (({ msg_type := .PROMISE, proposal_id := 0, sender_id := "B",
        receiver_id := "A", accepted_proposal_id := some 9 } :
          Message String).proposal_id =
      (initNode "A" : Node String).proposal_id) ∧
    ((ReceivePromiseSendAccept ["A", "B", "C"] (initNode "A" : Node String)
        { msg_type := .PROMISE, proposal_id := 0, sender_id := "B",
          receiver_id := "A",
          accepted_proposal_id := some 9 }).1.highest_accepted_id = -1) :=
  ⟨by decide, by
    have h := (C10_none_value_never_adopted ["A", "B", "C"]
      (initNode "A" : Node String)
      { msg_type := .PROMISE, proposal_id := 0, sender_id := "B",
        receiver_id := "A", accepted_proposal_id := some 9 } 9
      (by decide) rfl rfl).1
    rw [h]
    rfl⟩

theorem C3_accepted_broadcast_excludes_self_witness :
    ((1 : Int) ≥ (initNode "A" : Node String).promised_proposal_id) ∧
    ((ReceiveAcceptSendAccepted ["A", "B"] (initNode "A" : Node String)
        { msg_type := .ACCEPT, proposal_id := 1, sender_id := "B",
          receiver_id := "A", value := some "v" }).2.map Message.receiver_id =
      ["A", "B"].filter
        (fun nid => decide (nid ≠ (initNode "A" : Node String).node_id))) :=
  ⟨by decide,
    ((C3_accepted_broadcast_excludes_self ["A", "B"] (initNode "A" : Node String)
      { msg_type := .ACCEPT, proposal_id := 1, sender_id := "B",
        receiver_id := "A", value := some "v" }).1 (by decide)).1⟩

/-! ## Claim C4 -/

/-- C4: Adoption rule.  For a proposer processing a PROMISE for its current
proposal: whenever the promise carries a prior accepted pair `(i, v)` with
`i > highest_accepted_id`, the proposer adopts the pair; and any ACCEPT
broadcast it emits carries exactly the adopted (highest-id) value whenever one
was seen, never the proposer's own value. -/
theorem C4_adoption_rule (members : List String) (n : Node Val) (m : Message Val)
    (i : Int) (v : Val) :
    (m.proposal_id = n.proposal_id → m.accepted_proposal_id = some i →
      m.accepted_value = some v → i > n.highest_accepted_id →
      (ReceivePromiseSendAccept members n m).1.highest_accepted_id = i ∧
      (ReceivePromiseSendAccept members n m).1.highest_accepted_value = some v) ∧
    (∀ w, (ReceivePromiseSendAccept members n m).1.highest_accepted_value = some w →
      ∀ mm ∈ (ReceivePromiseSendAccept members n m).2, mm.value = some w) :=
  ⟨fun hpid hap hav hgt => RPSA_adopt hpid hap hav hgt,
   fun _ hw => RPSA_out_value hw⟩

/-- The §8 adoption scenario: proposer "A" (3 members, quorum 2) proposing
"Z" at ballot 10 receives promises carrying prior pairs (3, "X") from "B" and
then (5, "Y") from "C"; the second promise reaches quorum and the ACCEPT
broadcast carries "Y". -/
def c4_node_after_first_promise : Node String :=
  (ReceivePromiseSendAccept ["A", "B", "C"]
    (propose ["A", "B", "C"] (initNode "A") 10 "Z").1
    { msg_type := .PROMISE, proposal_id := 10, sender_id := "B",
      receiver_id := "A", accepted_proposal_id := some 3,
      accepted_value := some "X" }).1

def c4_second_promise : Message String :=
  { msg_type := .PROMISE, proposal_id := 10, sender_id := "C",
    receiver_id := "A", accepted_proposal_id := some 5,
    accepted_value := some "Y" }

theorem C4_adoption_rule_witness :
    (((ReceivePromiseSendAccept ["A", "B", "C"] c4_node_after_first_promise
        c4_second_promise).1.highest_accepted_id = 5) ∧
      ((ReceivePromiseSendAccept ["A", "B", "C"] c4_node_after_first_promise
        c4_second_promise).1.highest_accepted_value = some "Y")) ∧
    ((ReceivePromiseSendAccept ["A", "B", "C"] c4_node_after_first_promise
        c4_second_promise).2.map Message.value = [some "Y", some "Y"]) :=
  ⟨(C4_adoption_rule ["A", "B", "C"] c4_node_after_first_promise
      c4_second_promise 5 "Y").1 (by decide) rfl rfl (by decide),
   by decide⟩

/-! ## Claim C5 -/

/-- C5: Monotonic promise.  `promised_proposal_id` never decreases across any
sequence of events; the PREPARE handler updates it and emits a PROMISE reply
exactly when `msg.proposal_id` is strictly greater than the current
`promised_proposal_id`; and delivering PREPARE ids [5,3,7,7,9] to one fresh
acceptor yields the `promised_proposal_id` sequence [5,5,7,7,9] with replies
emitted only for 5, the first 7, and 9. -/
theorem C5_monotonic_promise :
    (∀ (s : Sys String) (events : List (Event String)) (p : String),
      (s.state p).promised_proposal_id ≤
        ((run s events).state p).promised_proposal_id) ∧
    (∀ (n : Node String) (m : Message String),
      (m.proposal_id > n.promised_proposal_id →
        (ReceiveProposeSendPromise n m).1.promised_proposal_id = m.proposal_id ∧
        (ReceiveProposeSendPromise n m).2 = [promiseMsg n m]) ∧
      (¬ m.proposal_id > n.promised_proposal_id →
        (ReceiveProposeSendPromise n m).1 = n ∧
        (ReceiveProposeSendPromise n m).2 = [])) ∧
    (promisedTrace (initNode "a") [5, 3, 7, 7, 9] =
      [(5, true), (5, false), (7, true), (7, false), (9, true)]) := by
  refine ⟨fun s events p => run_promised_mono s events p, ?_, by decide⟩
  intro n m
  constructor
  · intro hgt
    rw [RPSP_pos hgt]
    exact ⟨rfl, rfl⟩
  · intro hgt
    rw [RPSP_neg hgt]
    exact ⟨rfl, rfl⟩

theorem C5_monotonic_promise_witness :
    ((5 : Int) > (initNode "a" : Node String).promised_proposal_id) ∧
    ((ReceiveProposeSendPromise (initNode "a" : Node String)
        { msg_type := .PREPARE, proposal_id := 5, sender_id := "P",
          receiver_id := "a" }).1.promised_proposal_id = 5) :=
  ⟨by decide,
    ((C5_monotonic_promise.2.1 (initNode "a")
      { msg_type := .PREPARE, proposal_id := 5, sender_id := "P",
        receiver_id := "a" }).1 (by decide)).1⟩

/-! ## Claim C7 -/

/-- C7: Write-once learning.  Once `learned_values[k]` is set on a node it
never changes under any further events; and the ACCEPTED handler sets
`learned_values[msg.proposal_id]` to `msg.value` exactly when the quorum
threshold is reached by the updated count set and the key is not yet set,
leaving every other key unchanged. -/
theorem C7_write_once (members : List String) (n : Node Val) (m : Message Val) :
    (∀ (s : Sys Val) (events : List (Event Val)) (p : String) (k : Int)
        (v : Option Val),
      (s.state p).learned_values k = some v →
      ((run s events).state p).learned_values k = some v) ∧
    ((handle_accepted members n m).1.learned_values m.proposal_id =
      (if ((handle_accepted members n m).1.accept_counts m.proposal_id
            m.value).card ≥ majority_threshold members.length ∧
          n.learned_values m.proposal_id = none
       then some m.value else n.learned_values m.proposal_id)) ∧
    (∀ k, k ≠ m.proposal_id →
      (handle_accepted members n m).1.learned_values k = n.learned_values k) := by
  refine ⟨fun s events p k v h => run_learned_persist s events p k v h, ?_, ?_⟩
  · have hcnt : (handle_accepted members n m).1.accept_counts m.proposal_id m.value =
        (if n.accepted_proposal_id = m.proposal_id ∧ n.accepted_value = m.value then
          insert n.node_id (insert m.sender_id
            (n.accept_counts m.proposal_id m.value))
        else insert m.sender_id (n.accept_counts m.proposal_id m.value)) :=
      if_pos ⟨rfl, rfl⟩
    rw [hcnt]
    by_cases hcond : (if n.accepted_proposal_id = m.proposal_id ∧
          n.accepted_value = m.value then
        insert n.node_id (insert m.sender_id
          (n.accept_counts m.proposal_id m.value))
      else insert m.sender_id (n.accept_counts m.proposal_id m.value)).card ≥
        majority_threshold members.length ∧ n.learned_values m.proposal_id = none
    · have h1 : (handle_accepted members n m).1.learned_values =
          fun kk => if kk = m.proposal_id then some m.value
            else n.learned_values kk := if_pos hcond
      have h2 : (handle_accepted members n m).1.learned_values m.proposal_id =
          some m.value := by
        rw [h1]
        simp
      rw [h2, if_pos hcond]
    · have h1 : (handle_accepted members n m).1.learned_values =
          n.learned_values := if_neg hcond
      rw [h1, if_neg hcond]
  · intro k hk
    by_cases hcond : (if n.accepted_proposal_id = m.proposal_id ∧
          n.accepted_value = m.value then
        insert n.node_id (insert m.sender_id
          (n.accept_counts m.proposal_id m.value))
      else insert m.sender_id (n.accept_counts m.proposal_id m.value)).card ≥
        majority_threshold members.length ∧ n.learned_values m.proposal_id = none
    · have h1 : (handle_accepted members n m).1.learned_values =
          fun kk => if kk = m.proposal_id then some m.value
            else n.learned_values kk := if_pos hcond
      rw [h1]
      have h2 : (if k = m.proposal_id then some m.value
          else n.learned_values k) = n.learned_values k := if_neg hk
      exact h2
    · have h1 : (handle_accepted members n m).1.learned_values =
          n.learned_values := if_neg hcond
      rw [h1]

/-- A one-node system whose node has already learned `(3, "w")`. -/
def c7_sys : Sys String where
  members := ["A"]
  state := updState (fun nid => initNode nid) "A"
    { initNode "A" with
      learned_values := fun k => if k = 3 then some (some "w") else none }
  inflight := []

theorem C7_write_once_witness :
    ((c7_sys.state "A").learned_values 3 = some (some "w")) ∧
    (((run c7_sys [.propose "A" 9 "z", .deliver 0]).state "A").learned_values 3 =
      some (some "w")) :=
  ⟨by decide,
    (C7_write_once ["A"] (initNode "A")
      { msg_type := .ACCEPTED, proposal_id := 0, sender_id := "A",
        receiver_id := "A" }).1
      c7_sys [.propose "A" 9 "z", .deliver 0] "A" 3 (some "w") (by decide)⟩

/-! ## Claim C8 -/

/-- C8: the majority threshold used by the proposer's promise-count check and
the learner's quorum check is `n / 2 + 1` (integer division) over the
membership size, giving 1, 2, 2, 3, 3, 4, 6 for n = 1, 2, 3, 4, 5, 7, 10;
whenever the learner sets a learned value its count set has reached that
threshold, and whenever a proposer emits an ACCEPT its promise set (after
adding the promise being processed) has reached it. -/
theorem C8_majority_threshold :
    (∀ nn : Nat, majority_threshold nn = nn / 2 + 1) ∧
    ([1, 2, 3, 4, 5, 7, 10].map majority_threshold = [1, 2, 2, 3, 3, 4, 6]) ∧
    (∀ (members : List String) (n : Node String) (m : Message String),
      (handle_accepted members n m).1.learned_values m.proposal_id ≠
        n.learned_values m.proposal_id →
      majority_threshold members.length ≤
        ((handle_accepted members n m).1.accept_counts m.proposal_id
          m.value).card) ∧
    (∀ (members : List String) (n : Node String) (m : Message String),
      (ReceivePromiseSendAccept members n m).2 ≠ [] →
      majority_threshold members.length ≤
        (insert m.sender_id n.promises_received).card) := by
  refine ⟨fun nn => rfl, by decide, ?_, ?_⟩
  · intro members n m hne
    have hcnt : (handle_accepted members n m).1.accept_counts m.proposal_id m.value =
        (if n.accepted_proposal_id = m.proposal_id ∧ n.accepted_value = m.value then
          insert n.node_id (insert m.sender_id
            (n.accept_counts m.proposal_id m.value))
        else insert m.sender_id (n.accept_counts m.proposal_id m.value)) :=
      if_pos ⟨rfl, rfl⟩
    by_cases hcond : (if n.accepted_proposal_id = m.proposal_id ∧
          n.accepted_value = m.value then
        insert n.node_id (insert m.sender_id
          (n.accept_counts m.proposal_id m.value))
      else insert m.sender_id (n.accept_counts m.proposal_id m.value)).card ≥
        majority_threshold members.length ∧ n.learned_values m.proposal_id = none
    · rw [hcnt]
      exact hcond.1
    · exfalso
      apply hne
      have h1 : (handle_accepted members n m).1.learned_values =
          n.learned_values := if_neg hcond
      rw [h1]
  · intro members n m hne
    by_cases hpid : m.proposal_id = n.proposal_id
    · by_cases hq : majority_threshold members.length ≤
          (insert m.sender_id n.promises_received).card
      · exact hq
      · rcases RPSA_noquorum hpid hq with ⟨hi, hv, heq⟩
        rw [heq] at hne
        exact absurd rfl hne
    · rw [RPSA_stale hpid] at hne
      exact absurd rfl hne

theorem C8_majority_threshold_witness :
    ((ReceivePromiseSendAccept ["A", "B", "C"] c4_node_after_first_promise
        c4_second_promise).2 ≠ []) ∧
    (majority_threshold (["A", "B", "C"] : List String).length ≤
      (insert c4_second_promise.sender_id
        c4_node_after_first_promise.promises_received).card) :=
  ⟨by decide,
    C8_majority_threshold.2.2.2 ["A", "B", "C"] c4_node_after_first_promise
      c4_second_promise (by decide)⟩

/-! ## Claim C9 -/

/-- C9: Idempotent learning.  Delivering the same ACCEPTED message twice to
one node leaves `accept_counts` exactly as after the first delivery. -/
theorem C9_idempotent_learning (members : List String) (n : Node Val)
    (m : Message Val) :
    (handle_accepted members (handle_accepted members n m).1 m).1.accept_counts =
      (handle_accepted members n m).1.accept_counts := by
  funext k vv
  by_cases hkv : k = m.proposal_id ∧ vv = m.value
  · obtain ⟨hk, hv⟩ := hkv
    subst hk
    subst hv
    have hA : (handle_accepted members n m).1.accept_counts m.proposal_id m.value =
        (if n.accepted_proposal_id = m.proposal_id ∧ n.accepted_value = m.value then
          insert n.node_id (insert m.sender_id
            (n.accept_counts m.proposal_id m.value))
        else insert m.sender_id (n.accept_counts m.proposal_id m.value)) :=
      if_pos ⟨rfl, rfl⟩
    have hB : (handle_accepted members (handle_accepted members n m).1 m).1.accept_counts
        m.proposal_id m.value =
        (if n.accepted_proposal_id = m.proposal_id ∧ n.accepted_value = m.value then
          insert n.node_id (insert m.sender_id
            ((handle_accepted members n m).1.accept_counts m.proposal_id m.value))
        else insert m.sender_id
          ((handle_accepted members n m).1.accept_counts m.proposal_id m.value)) :=
      if_pos ⟨rfl, rfl⟩
    rw [hB, hA]
    by_cases hc : n.accepted_proposal_id = m.proposal_id ∧ n.accepted_value = m.value
    · rw [if_pos hc, if_pos hc]
      ext y
      simp only [Finset.mem_insert]
      tauto
    · rw [if_neg hc, if_neg hc]
      ext y
      simp only [Finset.mem_insert]
      tauto
  · have h2 : (handle_accepted members (handle_accepted members n m).1 m).1.accept_counts
        k vv = (handle_accepted members n m).1.accept_counts k vv := if_neg hkv
    exact h2

end PaxosPy
